import Mathlib

/-!
# Verification of the MinIO namespace lock registry (cmd/namespace-lock.go)

Shallow embedding of the namespace lock subsystem of juicedata/minio:
the reference-counted `NsLockMap` registry, the multi-resource
`localLockInstance` acquire/release protocol, and the `distLockInstance`
wrapper over a distributed `DRWMutex`.

The embedding is sequential: one lock-instance call runs to completion.
The outcome of each blocking mutex acquire (which in the program depends on
other threads and on real time) is supplied by a `grant` oracle, and wall
clock readings are supplied as `startTime`/`endTime` parameters.
Every registry-level side effect is additionally recorded in a ghost
`Event` trace so that "was invoked" / "was released" statements can be
made precise.
-/

set_option linter.unusedVariables false

/-- Modelled from the spec: resource names are "formed by joining a volume
name and one path with a canonical separator" (src lacks the `pathJoin`
helper of cmd/utils.go; only its callers are under src/). -/
def pathJoin (volume path : String) : String := volume ++ "/" ++ path

/-- Modelled from the spec: the per-path resource names handed to the
distributed mutex, one joined `volume/path` name per path, in order
(src lacks the joining helper; only its caller `NsLockMap.NewNSLock`
is under src/). -/
def pathsJoinAll (volume : String) (paths : List String) : List String :=
  paths.map (pathJoin volume)

/-- State of one `lsync.LRWMutex`, counting write and read holds.
Modelled from the spec (§4.2 LocalRWMutex): the lsync package is not under
src/; only the grant/release contract is specified. -/
structure LRW where
  writers : Nat
  readers : Nat
deriving Repr, DecidableEq

def LRW.new : LRW := ⟨0, 0⟩

/-- Effect on the mutex state of a granted `GetRLock` / `GetLock`. -/
def LRW.acquire (m : LRW) (readLock : Bool) : LRW :=
  if readLock then { m with readers := m.readers + 1 }
  else { m with writers := m.writers + 1 }

/-- Effect on the mutex state of `RUnlock` / `Unlock`. -/
def LRW.release (m : LRW) (readLock : Bool) : LRW :=
  if readLock then { m with readers := m.readers - 1 }
  else { m with writers := m.writers - 1 }

/-- `nsLock` — a registry entry: reference count plus the LRW mutex
(namespace-lock.go lines 58-62). -/
structure NsLock where
  ref : Int
  lrw : LRW
deriving Repr, DecidableEq

/-- The `lockMap` field of `NsLockMap`: resource name → entry.
Go's `map[string]*nsLock` is embedded as an association list with
pairwise-distinct keys. -/
abbrev LockMap := List (String × NsLock)

/-- `n.lockMap[resource]` lookup. -/
def lookupRes : LockMap → String → Option NsLock
  | [], _ => none
  | (k, v) :: rest, r => if k = r then some v else lookupRes rest r

/-- Point update of the entry at key `r` (Go mutates the entry in place). -/
def updateRes (s : LockMap) (r : String) (f : NsLock → NsLock) : LockMap :=
  s.map (fun e => if e.1 = r then (e.1, f e.2) else e)

/-- `delete(n.lockMap, resource)`. -/
def removeRes : LockMap → String → LockMap
  | [], _ => []
  | (k, v) :: rest, r => if k = r then rest else (k, v) :: removeRes rest r

/-- Reference count recorded for `r` (0 when absent). -/
def refOf (s : LockMap) (r : String) : Int :=
  match lookupRes s r with
  | none => 0
  | some lk => lk.ref

/-- Keys of the registry map. -/
def keysOf (s : LockMap) : List String := s.map Prod.fst

/-- Registry well-formedness: distinct keys (a Go map) and every stored
entry has a strictly positive reference count — "an entry exists in the
map iff ref > 0". -/
def WF (s : LockMap) : Prop :=
  (keysOf s).Nodup ∧ ∀ e ∈ s, 0 < e.2.ref

instance (s : LockMap) : Decidable (WF s) := by
  unfold WF; infer_instance

/-- Ghost trace events recording the observable side effects of a call. -/
inductive Event where
  /-- One per-path `li.ns.lock(...)` sub-acquire attempt of a
  localLockInstance, with the timeout bound it was given and its outcome. -/
  | subAcquire (path : String) (readLock : Bool) (timeout : Nat) (granted : Bool)
  /-- A granted acquire on the entry mutex of `resource` in the given mode. -/
  | granted (resource : String) (readLock : Bool)
  /-- An `Unlock`/`RUnlock` invoked on the entry mutex of `resource`. -/
  | mutexUnlock (resource : String) (readLock : Bool)
  /-- A single combined acquire call on a distributed DRWMutex. -/
  | drwAcquire (names : List String) (readLock : Bool)
  /-- A release call on a distributed DRWMutex. -/
  | drwRelease (names : List String) (readLock : Bool)
  /-- `timeout.LogFailure()` was invoked. -/
  | dtLogFailure
  /-- `timeout.LogSuccess(elapsed)` was invoked. -/
  | dtLogSuccess (elapsed : Nat)
deriving Repr, DecidableEq

/-- Occurrence count of an event in a trace. -/
def countE (e : Event) : List Event → Nat
  | [] => 0
  | x :: xs => (if x = e then 1 else 0) + countE e xs

def isMutexUnlock : Event → Bool
  | .mutexUnlock _ _ => true
  | _ => false

def isDtLogSuccess : Event → Bool
  | .dtLogSuccess _ => true
  | _ => false

def isDrwAcquire : Event → Bool
  | .drwAcquire _ _ => true
  | _ => false

/-! ## DynamicTimeout

Modelled from the spec (§4.1): dynamic-timeout.go is not under src/, only
its test file is. The controller keeps a current value, a floor, and a
rolling window of outcomes; every `dynamicTimeoutLogSize` events it
adjusts: any failure in the window doubles `current` (capped at a hard
ceiling), an all-success window moves `current` toward twice the mean
latency, clamped below by `minimum`. -/

def dynamicTimeoutLogSize : Nat := 256

/-- Hard ceiling (30 minutes, in nanoseconds). -/
def maxDynamicTimeout : Nat := 1800000000000

/-- Modelled from the spec: the DynamicTimeout controller state. -/
structure DynamicTimeout where
  current : Nat
  minimum : Nat
  /-- Success latencies recorded in the window in progress. -/
  window : List Nat
  /-- Failures recorded in the window in progress. -/
  failures : Nat
deriving Repr, DecidableEq

def NewDynamicTimeout (initial minimum : Nat) : DynamicTimeout :=
  ⟨initial, minimum, [], 0⟩

/-- `Timeout()` — the current timeout value. -/
def DynamicTimeout.Timeout (dt : DynamicTimeout) : Nat := dt.current

/-- Window-boundary adjustment: failure dominates and doubles (capped);
an all-success window clamps toward twice the window mean. -/
def DynamicTimeout.adjust (dt : DynamicTimeout) : DynamicTimeout :=
  if 0 < dt.failures then
    { dt with current := min maxDynamicTimeout (2 * dt.current),
              window := [], failures := 0 }
  else
    { dt with current := max dt.minimum
                (min dt.current (2 * (dt.window.sum / dynamicTimeoutLogSize))),
              window := [], failures := 0 }

/-- `LogSuccess(d)` — record a success latency; adjust at window boundary. -/
def DynamicTimeout.LogSuccess (dt : DynamicTimeout) (d : Nat) : DynamicTimeout :=
  let dt' := { dt with window := dt.window ++ [d] }
  if dynamicTimeoutLogSize ≤ dt'.window.length + dt'.failures then dt'.adjust else dt'

/-- `LogFailure()` — record a failure; adjust at window boundary. -/
def DynamicTimeout.LogFailure (dt : DynamicTimeout) : DynamicTimeout :=
  let dt' := { dt with failures := dt.failures + 1 }
  if dynamicTimeoutLogSize ≤ dt'.window.length + dt'.failures then dt'.adjust else dt'

/-! ## Contexts

`context.Context` values are embedded symbolically: all that the claims
need is whether a context is the caller's original value or a
`context.WithCancel` wrapper derived from it. -/

inductive Ctx where
  | root (id : Nat)
  | withCancel (parent : Ctx)
deriving Repr, DecidableEq

def Ctx.depth : Ctx → Nat
  | .root _ => 0
  | .withCancel p => p.depth + 1

/-! ## The NsLockMap registry (namespace-lock.go lines 46-135) -/

/-- `NsLockMap` (lines 64-71): the dist flag and the lock map.  The Go
`lockMap` is nil in distributed mode (`NewNSLock` only allocates it for
the local mode); `none` embeds the nil map. -/
structure NsLockMap where
  isDistErasure : Bool
  lockMap : Option LockMap
deriving Repr, DecidableEq

/-- `NewNSLock(isDistErasure)` (lines 47-56): the map is allocated only in
the non-distributed branch. -/
def NewNSLock (isDistErasure : Bool) : NsLockMap :=
  { isDistErasure := isDistErasure,
    lockMap := if isDistErasure then none else some [] }

/-- First critical section of `NsLockMap.lock` (lines 77-87): look up the
resource, insert a fresh entry if absent, then `nsLk.ref++` and store. -/
def lockAddRef (s : LockMap) (r : String) : LockMap :=
  match lookupRes s r with
  | none => s ++ [(r, { ref := 1, lrw := LRW.new })]
  | some _ => updateRes s r (fun lk => { lk with ref := lk.ref + 1 })

/-- The decrement step shared by the failure path of `lock` (lines 98-107)
and by `unlock` (lines 127-134): `ref--`; a negative result is a fatal
invariant violation (logger.CriticalIf); the entry is deleted at ref 0.
Returns the new map and whether the fatal condition fired.  An absent
resource (a nil map entry, which would fault in Go) is also reported as
fatal; the flows below never reach it. -/
def lockSubRef (s : LockMap) (r : String) : LockMap × Bool :=
  match lookupRes s r with
  | none => (s, true)
  | some lk =>
      let newRef := lk.ref - 1
      let fatal := newRef < 0
      if newRef = 0 then (removeRes s r, fatal)
      else (updateRes s r (fun l => { l with ref := newRef }), fatal)

/-- Result of one `NsLockMap.lock` call. -/
structure LockResult where
  locked : Bool
  lockMap : LockMap
  fatal : Bool
  events : List Event
deriving Repr, DecidableEq

/-- `NsLockMap.lock` (lines 74-111).  `grant` is the oracle outcome of the
blocking `GetLock`/`GetRLock` on the entry mutex: `true` means granted
within `timeout`, `false` means the acquire timed out (or the context was
cancelled).  On grant the entry mutex gains a hold; on failure the
reference count is rolled back and the entry reclaimed at ref 0. -/
def lock (s : LockMap) (volume path lockSource opsID : String) (readLock : Bool)
    (timeout : Nat) (grant : Bool) : LockResult :=
  let resource := pathJoin volume path
  let s1 := lockAddRef s resource
  if grant then
    { locked := true,
      lockMap := updateRes s1 resource (fun lk => { lk with lrw := lk.lrw.acquire readLock }),
      fatal := false,
      events := [.granted resource readLock] }
  else
    let d := lockSubRef s1 resource
    { locked := false, lockMap := d.1, fatal := d.2, events := [] }

/-- Result of one `NsLockMap.unlock` call. -/
structure UnlockResult where
  lockMap : LockMap
  fatal : Bool
  events : List Event
deriving Repr, DecidableEq

/-- `NsLockMap.unlock` (lines 114-135): silently return when the resource
is absent; otherwise `RUnlock`/`Unlock` the entry mutex, then decrement
the reference count, fatally so below zero, deleting the entry at zero. -/
def unlock (s : LockMap) (volume path : String) (readLock : Bool) : UnlockResult :=
  let resource := pathJoin volume path
  match lookupRes s resource with
  | none => { lockMap := s, fatal := false, events := [] }
  | some _ =>
      let s1 := updateRes s resource (fun lk => { lk with lrw := lk.lrw.release readLock })
      let d := lockSubRef s1 resource
      { lockMap := d.1, fatal := d.2, events := [.mutexUnlock resource readLock] }

/-! ## Sorting of paths (sort.Strings, line 204)

Go's `sort.Strings` orders strings bytewise; on UTF-8 data this is the
lexicographic order on the code-point sequences, i.e. on `String.data`. -/

/-- Lexicographic string order used by `sort.Strings`. -/
def strLe (a b : String) : Prop := a.data ≤ b.data

instance : DecidableRel strLe := fun a b => by unfold strLe; infer_instance

theorem strLe_total (a b : String) : strLe a b ∨ strLe b a := by
  rcases le_total a b with h | h
  · exact Or.inl (String.le_iff_toList_le.mp h)
  · exact Or.inr (String.le_iff_toList_le.mp h)

theorem strLe_trans {a b c : String} (h1 : strLe a b) (h2 : strLe b c) : strLe a c :=
  String.le_iff_toList_le.mp
    (le_trans (String.le_iff_toList_le.mpr h1) (String.le_iff_toList_le.mpr h2))

instance : IsTotal String strLe := ⟨strLe_total⟩

instance : IsTrans String strLe := ⟨fun _ _ _ => strLe_trans⟩

/-- `sort.Strings(paths)`. -/
def sortStrings (l : List String) : List String := List.insertionSort strLe l

theorem sortStrings_sorted (l : List String) : List.Sorted strLe (sortStrings l) :=
  List.sorted_insertionSort strLe l

/-! ## distLockInstance (lines 137-183) -/

/-- A distributed `dsync.DRWMutex`: the claims only need the resource
names it was constructed over. -/
structure DRWMutex where
  names : List String
deriving Repr, DecidableEq

/-- `distLockInstance` (lines 138-141). -/
structure DistLockInstance where
  rwMutex : DRWMutex
  opsID : String
deriving Repr, DecidableEq

/-- Result of a distLockInstance acquire.  `passedCtx` records which
context value was handed to the underlying DRWMutex acquire. -/
structure DistAcqResult where
  passedCtx : Ctx
  ret : Option Ctx
  err : Bool
  dt : DynamicTimeout
  trace : List Event
deriving Repr, DecidableEq

/-- `distLockInstance.GetLock` (lines 144-157): wrap the caller's context
with a cancel function, hand the wrapped context to the DRWMutex acquire;
on failure `LogFailure` and return the original context with
`OperationTimedOut`; on success `LogSuccess(elapsed)` and return the
wrapped context. -/
def DistLockInstance.GetLock (di : DistLockInstance) (ctx : Ctx) (dt : DynamicTimeout)
    (grant : Bool) (startTime endTime : Nat) : DistAcqResult :=
  let newCtx := Ctx.withCancel ctx
  if grant then
    { passedCtx := newCtx, ret := some newCtx, err := false,
      dt := dt.LogSuccess (endTime - startTime),
      trace := [.drwAcquire di.rwMutex.names false, .dtLogSuccess (endTime - startTime)] }
  else
    { passedCtx := newCtx, ret := some ctx, err := true,
      dt := dt.LogFailure,
      trace := [.drwAcquire di.rwMutex.names false, .dtLogFailure] }

/-- `distLockInstance.GetRLock` (lines 165-178): identical to `GetLock`
except that the source hands the caller's ORIGINAL context `ctx` — not
the cancel-wrapped `newCtx` — to `di.rwMutex.GetRLock` (line 170). -/
def DistLockInstance.GetRLock (di : DistLockInstance) (ctx : Ctx) (dt : DynamicTimeout)
    (grant : Bool) (startTime endTime : Nat) : DistAcqResult :=
  let newCtx := Ctx.withCancel ctx
  if grant then
    { passedCtx := ctx, ret := some newCtx, err := false,
      dt := dt.LogSuccess (endTime - startTime),
      trace := [.drwAcquire di.rwMutex.names true, .dtLogSuccess (endTime - startTime)] }
  else
    { passedCtx := ctx, ret := some ctx, err := true,
      dt := dt.LogFailure,
      trace := [.drwAcquire di.rwMutex.names true, .dtLogFailure] }

/-- `distLockInstance.Unlock` (lines 160-162). -/
def DistLockInstance.Unlock (di : DistLockInstance) : List Event :=
  [.drwRelease di.rwMutex.names false]

/-- `distLockInstance.RUnlock` (lines 181-183). -/
def DistLockInstance.RUnlock (di : DistLockInstance) : List Event :=
  [.drwRelease di.rwMutex.names true]

/-! ## localLockInstance (lines 185-266) -/

/-- `localLockInstance` (lines 186-191); the `ns` registry pointer is the
state threaded through the operations. -/
structure LocalLockInstance where
  volume : String
  paths : List String
  opsID : String
deriving Repr, DecidableEq

/-- Result of a localLockInstance acquire. -/
structure AcqResult where
  ret : Option Ctx
  err : Bool
  lockMap : LockMap
  dt : DynamicTimeout
  fatal : Bool
  trace : List Event
deriving Repr, DecidableEq

/-- Result of releasing a list of paths. -/
structure UnlockAllResult where
  lockMap : LockMap
  fatal : Bool
  events : List Event
deriving Repr, DecidableEq

/-- The unwind / release loop: `li.ns.unlock(li.volume, path, readLock)`
for each listed path in order (lines 217-221, 233-235, 263-265). -/
def releaseAll (volume : String) (readLock : Bool) : LockMap → List String → UnlockAllResult
  | s, [] => { lockMap := s, fatal := false, events := [] }
  | s, p :: rest =>
      let u := unlock s volume p readLock
      let r := releaseAll volume readLock u.lockMap rest
      { lockMap := r.lockMap, fatal := u.fatal || r.fatal, events := u.events ++ r.events }

/-- The per-path acquire loop shared by `localLockInstance.GetLock`
(lines 209-228) and `GetRLock` (lines 239-258): for each pending path call
`li.ns.lock(ctx, volume, path, ..., readLock, timeout.Timeout())`; on the
first failure `LogFailure`, release every previously granted path
(`acquired`), and return a nil context with `OperationTimedOut`; when all
paths are granted `LogSuccess(now - start)` and return the caller's
context.  `grants` is the oracle of blocking-acquire outcomes, consumed
one per attempt. -/
def localGo (volume opsID : String) (readLock : Bool) (ctx : Ctx)
    (dt : DynamicTimeout) (startTime endTime : Nat) :
    List String → List String → List Bool → LockMap → AcqResult
  | [], _acquired, _gs, s =>
      { ret := some ctx, err := false, lockMap := s,
        dt := dt.LogSuccess (endTime - startTime), fatal := false,
        trace := [.dtLogSuccess (endTime - startTime)] }
  | path :: rest, acquired, gs, s =>
      let g := gs.headD false
      let t := dt.Timeout
      let r := lock s volume path "lockSource" opsID readLock t g
      if r.locked then
        let res := localGo volume opsID readLock ctx dt startTime endTime
          rest (acquired ++ [path]) gs.tail r.lockMap
        { res with
            trace := .subAcquire path readLock t g :: (r.events ++ res.trace),
            fatal := r.fatal || res.fatal }
      else
        let u := releaseAll volume readLock r.lockMap acquired
        { ret := none, err := true, lockMap := u.lockMap, dt := dt.LogFailure,
          fatal := r.fatal || u.fatal,
          trace := .subAcquire path readLock t g ::
            (r.events ++ [.dtLogFailure] ++ u.events) }

/-- `localLockInstance.GetLock` (lines 209-228): write mode. -/
def LocalLockInstance.GetLock (li : LocalLockInstance) (ctx : Ctx) (dt : DynamicTimeout)
    (grants : List Bool) (startTime endTime : Nat) (s : LockMap) : AcqResult :=
  localGo li.volume li.opsID false ctx dt startTime endTime li.paths [] grants s

/-- `localLockInstance.GetRLock` (lines 239-258): read mode. -/
def LocalLockInstance.GetRLock (li : LocalLockInstance) (ctx : Ctx) (dt : DynamicTimeout)
    (grants : List Bool) (startTime endTime : Nat) (s : LockMap) : AcqResult :=
  localGo li.volume li.opsID true ctx dt startTime endTime li.paths [] grants s

/-- `localLockInstance.Unlock` (lines 231-236). -/
def LocalLockInstance.Unlock (li : LocalLockInstance) (s : LockMap) : UnlockAllResult :=
  releaseAll li.volume false s li.paths

/-- `localLockInstance.RUnlock` (lines 261-266). -/
def LocalLockInstance.RUnlock (li : LocalLockInstance) (s : LockMap) : UnlockAllResult :=
  releaseAll li.volume true s li.paths

/-! ## NsLockMap.NewNSLock (lines 196-206) and the RWLocker dispatch -/

/-- The `RWLocker` implementations returned by `NsLockMap.NewNSLock`. -/
inductive RWLocker where
  | distInst (di : DistLockInstance)
  | localInst (li : LocalLockInstance)
deriving Repr, DecidableEq

/-- `NsLockMap.NewNSLock` (lines 196-206): in distributed mode build one
DRWMutex over the joined `volume/path` names (in the caller's order) and
return a distLockInstance; otherwise `sort.Strings(paths)` and return a
localLockInstance.  `opsID` stands for the generated `mustGetUUID()`. -/
def NsLockMap.NewNSLock (n : NsLockMap) (opsID volume : String)
    (paths : List String) : RWLocker :=
  if n.isDistErasure then
    .distInst { rwMutex := { names := pathsJoinAll volume paths }, opsID := opsID }
  else
    .localInst { volume := volume, paths := sortStrings paths, opsID := opsID }

/-- The NsLockMap state after dispatching `GetLock` on an RWLocker: a
distLockInstance holds no reference to the NsLockMap (its struct, lines
138-141, has only the DRWMutex and the opsID), so the registry state is
untouched; a localLockInstance runs the per-path loop against `li.ns`. -/
def RWLocker.nsAfterGetLock : RWLocker → NsLockMap → Ctx → DynamicTimeout →
    List Bool → Nat → Nat → NsLockMap
  | .distInst _, n, _, _, _, _, _ => n
  | .localInst li, n, ctx, dt, gs, t1, t2 =>
      { n with lockMap := some (li.GetLock ctx dt gs t1 t2 (n.lockMap.getD [])).lockMap }

/-- The NsLockMap state after dispatching `GetRLock` on an RWLocker. -/
def RWLocker.nsAfterGetRLock : RWLocker → NsLockMap → Ctx → DynamicTimeout →
    List Bool → Nat → Nat → NsLockMap
  | .distInst _, n, _, _, _, _, _ => n
  | .localInst li, n, ctx, dt, gs, t1, t2 =>
      { n with lockMap := some (li.GetRLock ctx dt gs t1 t2 (n.lockMap.getD [])).lockMap }

/-- The NsLockMap state after dispatching `Unlock` on an RWLocker. -/
def RWLocker.nsAfterUnlock : RWLocker → NsLockMap → NsLockMap
  | .distInst _, n => n
  | .localInst li, n => { n with lockMap := some (li.Unlock (n.lockMap.getD [])).lockMap }

/-- The NsLockMap state after dispatching `RUnlock` on an RWLocker. -/
def RWLocker.nsAfterRUnlock : RWLocker → NsLockMap → NsLockMap
  | .distInst _, n => n
  | .localInst li, n => { n with lockMap := some (li.RUnlock (n.lockMap.getD [])).lockMap }

/-! ## Association-list lemmas for the registry map -/

theorem countE_append (e : Event) (l1 l2 : List Event) :
    countE e (l1 ++ l2) = countE e l1 + countE e l2 := by
  induction l1 with
  | nil => simp [countE]
  | cons x xs ih => simp [countE, ih]; ring

theorem countE_cons (e x : Event) (l : List Event) :
    countE e (x :: l) = (if x = e then 1 else 0) + countE e l := rfl

/-- Occurrence count of a string in a list. -/
def countS (r : String) : List String → Nat
  | [] => 0
  | x :: xs => (if x = r then 1 else 0) + countS r xs

theorem countE_map_mutexUnlock (r : String) (m : Bool) (l : List String) :
    countE (.mutexUnlock r m) (l.map (fun x => Event.mutexUnlock x m)) = countS r l := by
  induction l with
  | nil => rfl
  | cons x xs ih =>
    simp only [List.map_cons, countE, countS, ih, Event.mutexUnlock.injEq]
    by_cases h : x = r <;> simp [h]

theorem countE_map_mutexUnlock_other (r : String) (m mm : Bool) (hm : mm ≠ m)
    (l : List String) :
    countE (.mutexUnlock r mm) (l.map (fun x => Event.mutexUnlock x m)) = 0 := by
  induction l with
  | nil => rfl
  | cons x xs ih => simp [countE, ih, Event.mutexUnlock.injEq, Ne.symm hm]

theorem lookupRes_cons (k : String) (v : NsLock) (rest : LockMap) (r : String) :
    lookupRes ((k, v) :: rest) r = if k = r then some v else lookupRes rest r := rfl

theorem updateRes_cons (k : String) (v : NsLock) (rest : LockMap) (r : String)
    (f : NsLock → NsLock) :
    updateRes ((k, v) :: rest) r f =
      (if k = r then (k, f v) else (k, v)) :: updateRes rest r f := by
  simp only [updateRes, List.map_cons]

theorem removeRes_cons (k : String) (v : NsLock) (rest : LockMap) (r : String) :
    removeRes ((k, v) :: rest) r =
      if k = r then rest else (k, v) :: removeRes rest r := rfl

theorem keysOf_cons (k : String) (v : NsLock) (rest : LockMap) :
    keysOf ((k, v) :: rest) = k :: keysOf rest := rfl

theorem lookupRes_eq_none_iff (s : LockMap) (r : String) :
    lookupRes s r = none ↔ r ∉ keysOf s := by
  induction s with
  | nil => simp [lookupRes, keysOf]
  | cons e rest ih =>
    obtain ⟨k, v⟩ := e
    simp only [keysOf, List.map_cons, List.mem_cons] at ih ⊢
    by_cases h : k = r
    · subst h
      simp [lookupRes]
    · rw [lookupRes, if_neg h, ih]
      constructor
      · intro hn hmem
        rcases hmem with heq | hmem
        · exact h heq.symm
        · exact hn hmem
      · intro hn hmem
        exact hn (Or.inr hmem)

theorem mem_of_lookupRes {s : LockMap} {r : String} {v : NsLock}
    (h : lookupRes s r = some v) : (r, v) ∈ s := by
  induction s with
  | nil => simp [lookupRes] at h
  | cons e rest ih =>
    cases e with
    | mk k w =>
      by_cases hk : k = r
      · subst hk
        simp [lookupRes] at h
        subst h; exact List.mem_cons_self _ _
      · simp [lookupRes, hk] at h
        exact List.mem_cons_of_mem _ (ih h)

theorem lookupRes_of_mem_nodup {s : LockMap} {k : String} {v : NsLock}
    (hnd : (keysOf s).Nodup) (hmem : (k, v) ∈ s) : lookupRes s k = some v := by
  induction s with
  | nil => simp at hmem
  | cons e rest ih =>
    cases e with
    | mk k' v' =>
      simp only [keysOf, List.map_cons, List.nodup_cons] at hnd
      rcases List.mem_cons.mp hmem with h | h
      · rw [Prod.mk.injEq] at h
        simp [lookupRes, h.1, h.2]
      · by_cases hk : k' = k
        · exfalso
          apply hnd.1
          subst hk
          exact List.mem_map.mpr ⟨(k', v), h, rfl⟩
        · simpa [lookupRes, hk] using ih hnd.2 h

theorem lookupRes_append (s t : LockMap) (r : String) :
    lookupRes (s ++ t) r = (lookupRes s r).or (lookupRes t r) := by
  induction s with
  | nil => simp [lookupRes]
  | cons e rest ih =>
    cases e with
    | mk k v => by_cases h : k = r <;> simp [lookupRes, h, ih]

theorem lookupRes_updateRes (s : LockMap) (r x : String) (f : NsLock → NsLock) :
    lookupRes (updateRes s r f) x =
      if x = r then (lookupRes s r).map f else lookupRes s x := by
  induction s with
  | nil => by_cases h : x = r <;> simp [lookupRes, updateRes, h]
  | cons e rest ih =>
    obtain ⟨k, v⟩ := e
    rw [updateRes_cons]
    by_cases hkr : k = r
    · subst hkr
      by_cases hxk : x = k
      · subst hxk
        simp [lookupRes_cons]
      · have hkx : ¬ k = x := fun h => hxk h.symm
        simp [lookupRes_cons, ih, hkx, hxk]
    · by_cases hkx : k = x
      · subst hkx
        simp [lookupRes_cons, hkr]
      · have hxk : ¬ x = k := fun h => hkx h.symm
        simp [lookupRes_cons, ih, hkr, hkx]

theorem lookupRes_removeRes_other (s : LockMap) (r x : String) (hx : x ≠ r) :
    lookupRes (removeRes s r) x = lookupRes s x := by
  induction s with
  | nil => rfl
  | cons e rest ih =>
    obtain ⟨k, v⟩ := e
    by_cases hkr : k = r
    · subst hkr
      have hkx : ¬ k = x := fun h => hx (h.symm)
      rw [removeRes_cons, if_pos rfl, lookupRes_cons, if_neg hkx]
    · rw [removeRes_cons, if_neg hkr, lookupRes_cons, lookupRes_cons]
      by_cases hkx : k = x
      · rw [if_pos hkx, if_pos hkx]
      · rw [if_neg hkx, if_neg hkx, ih]

theorem removeRes_append_self {s : LockMap} {r : String} (v : NsLock)
    (h : lookupRes s r = none) : removeRes (s ++ [(r, v)]) r = s := by
  induction s with
  | nil => simp [removeRes]
  | cons e rest ih =>
    cases e with
    | mk k w =>
      by_cases hk : k = r
      · simp [lookupRes, hk] at h
      · simp only [lookupRes, if_neg hk] at h
        simp [removeRes, hk, ih h]

theorem keysOf_updateRes (s : LockMap) (r : String) (f : NsLock → NsLock) :
    keysOf (updateRes s r f) = keysOf s := by
  induction s with
  | nil => rfl
  | cons e rest ih =>
    cases e with
    | mk k v => by_cases h : k = r <;> simp [keysOf, updateRes, h] <;> simpa [keysOf, updateRes] using ih

theorem removeRes_sublist (s : LockMap) (r : String) : (removeRes s r).Sublist s := by
  induction s with
  | nil => simp [removeRes]
  | cons e rest ih =>
    cases e with
    | mk k v =>
      by_cases h : k = r
      · rw [removeRes_cons, if_pos h]
        exact List.sublist_cons_self (k, v) rest
      · rw [removeRes_cons, if_neg h]
        exact ih.cons₂ (k, v)

theorem nodup_keysOf_removeRes {s : LockMap} (r : String)
    (h : (keysOf s).Nodup) : (keysOf (removeRes s r)).Nodup :=
  ((removeRes_sublist s r).map Prod.fst).nodup h

theorem mem_updateRes {s : LockMap} {r : String} {f : NsLock → NsLock} {e : String × NsLock}
    (h : e ∈ updateRes s r f) :
    e ∈ s ∨ ∃ e' ∈ s, e'.1 = r ∧ e = (e'.1, f e'.2) := by
  rcases List.mem_map.mp h with ⟨e', he', heq⟩
  by_cases hr : e'.1 = r
  · right; exact ⟨e', he', hr, by simp [hr, ← heq]⟩
  · left; simpa [hr, ← heq] using he'

theorem mem_of_mem_removeRes {s : LockMap} {r : String} {e : String × NsLock}
    (h : e ∈ removeRes s r) : e ∈ s :=
  (removeRes_sublist s r).mem h

theorem lookupRes_nil (r : String) : lookupRes [] r = none := rfl

theorem keysOf_append (s t : LockMap) : keysOf (s ++ t) = keysOf s ++ keysOf t :=
  List.map_append _ s t

theorem refOf_of_some {s : LockMap} {r : String} {lk : NsLock}
    (h : lookupRes s r = some lk) : refOf s r = lk.ref := by
  simp [refOf, h]

theorem refOf_of_none {s : LockMap} {r : String}
    (h : lookupRes s r = none) : refOf s r = 0 := by
  simp [refOf, h]

theorem lookupRes_some_of_refOf_pos (s : LockMap) (r : String)
    (h : 0 < refOf s r) : ∃ lk, lookupRes s r = some lk ∧ lk.ref = refOf s r := by
  cases hl : lookupRes s r with
  | none => rw [refOf_of_none hl] at h; omega
  | some lk => exact ⟨lk, rfl, (refOf_of_some hl).symm⟩

theorem refOf_pos_of_WF {s : LockMap} {r : String} {lk : NsLock} (hwf : WF s)
    (h : lookupRes s r = some lk) : 0 < lk.ref :=
  hwf.2 (r, lk) (mem_of_lookupRes h)

/-! ## lockAddRef: first critical section of `NsLockMap.lock` -/

theorem lockAddRef_of_none {s : LockMap} {r : String} (h : lookupRes s r = none) :
    lockAddRef s r = s ++ [(r, { ref := 1, lrw := LRW.new })] := by
  simp [lockAddRef, h]

theorem lockAddRef_of_some {s : LockMap} {r : String} {lk : NsLock}
    (h : lookupRes s r = some lk) :
    lockAddRef s r = updateRes s r (fun l => { l with ref := l.ref + 1 }) := by
  simp [lockAddRef, h]

theorem lookupRes_lockAddRef_other {s : LockMap} {r x : String} (hx : x ≠ r) :
    lookupRes (lockAddRef s r) x = lookupRes s x := by
  cases h : lookupRes s r with
  | none =>
    rw [lockAddRef_of_none h, lookupRes_append, lookupRes_cons,
      if_neg (fun heq : r = x => hx heq.symm), lookupRes_nil]
    cases lookupRes s x <;> rfl
  | some lk => rw [lockAddRef_of_some h, lookupRes_updateRes, if_neg hx]

theorem refOf_lockAddRef_self (s : LockMap) (r : String) :
    refOf (lockAddRef s r) r = refOf s r + 1 := by
  cases h : lookupRes s r with
  | none =>
    rw [lockAddRef_of_none h, refOf_of_none h]
    rw [refOf, lookupRes_append, h, lookupRes_cons, if_pos rfl]
    rfl
  | some lk =>
    rw [lockAddRef_of_some h, refOf_of_some h, refOf, lookupRes_updateRes, if_pos rfl, h]
    rfl

theorem refOf_lockAddRef_other {s : LockMap} {r x : String} (hx : x ≠ r) :
    refOf (lockAddRef s r) x = refOf s x := by
  rw [refOf, lookupRes_lockAddRef_other hx, refOf]

theorem WF_updateRes_of {s : LockMap} {r : String} {f : NsLock → NsLock} (hwf : WF s)
    (hf : ∀ lk : NsLock, 0 < lk.ref → 0 < (f lk).ref) : WF (updateRes s r f) := by
  constructor
  · rw [keysOf_updateRes]; exact hwf.1
  · intro e he
    rcases mem_updateRes he with h | ⟨e', he', _, rfl⟩
    · exact hwf.2 e h
    · exact hf _ (hwf.2 e' he')

theorem WF_lockAddRef {s : LockMap} (hwf : WF s) (r : String) : WF (lockAddRef s r) := by
  cases h : lookupRes s r with
  | none =>
    rw [lockAddRef_of_none h]
    constructor
    · rw [keysOf_append]
      have hr : r ∉ keysOf s := (lookupRes_eq_none_iff s r).mp h
      rw [List.nodup_append]
      refine ⟨hwf.1, List.nodup_singleton r, ?_⟩
      intro a ha hb
      simp only [keysOf, List.map_cons, List.map_nil, List.mem_singleton] at hb
      exact hr (hb ▸ ha)
    · intro e he
      rcases List.mem_append.mp he with h1 | h1
      · exact hwf.2 e h1
      · simp only [List.mem_singleton] at h1
        subst h1
        norm_num
  | some lk =>
    rw [lockAddRef_of_some h]
    exact WF_updateRes_of hwf (fun lk h => by simp; omega)

/-! ## lockSubRef: the shared decrement step -/

theorem lookupRes_removeRes_self {s : LockMap} {r : String}
    (hnd : (keysOf s).Nodup) : lookupRes (removeRes s r) r = none := by
  induction s with
  | nil => rfl
  | cons e rest ih =>
    obtain ⟨k, v⟩ := e
    rw [keysOf_cons, List.nodup_cons] at hnd
    by_cases h : k = r
    · rw [removeRes_cons, if_pos h]
      subst h
      exact (lookupRes_eq_none_iff rest k).mpr hnd.1
    · rw [removeRes_cons, if_neg h, lookupRes_cons, if_neg h]
      exact ih hnd.2

theorem WF_removeRes {s : LockMap} (hwf : WF s) (r : String) : WF (removeRes s r) :=
  ⟨List.Nodup.sublist ((removeRes_sublist s r).map Prod.fst) hwf.1,
   fun e he => hwf.2 e (mem_of_mem_removeRes he)⟩

theorem lockSubRef_spec {s : LockMap} {r : String} {lk : NsLock} (hwf : WF s)
    (h : lookupRes s r = some lk) :
    (lockSubRef s r).2 = false ∧ WF (lockSubRef s r).1 ∧
    refOf (lockSubRef s r).1 r = lk.ref - 1 ∧
    (∀ x, x ≠ r → lookupRes (lockSubRef s r).1 x = lookupRes s x) := by
  have hpos : 0 < lk.ref := refOf_pos_of_WF hwf h
  have hfatal : ¬ (lk.ref - 1 < 0) := by omega
  by_cases hz : lk.ref - 1 = 0
  · have : lockSubRef s r = (removeRes s r, decide (lk.ref - 1 < 0)) := by
      simp [lockSubRef, h, hz]
    rw [this]
    refine ⟨by simp [hfatal], WF_removeRes hwf r, ?_, ?_⟩
    · rw [show refOf (removeRes s r, decide (lk.ref - 1 < 0)).1 r = refOf (removeRes s r) r from rfl,
        refOf_of_none (lookupRes_removeRes_self hwf.1)]
      omega
    · intro x hx
      exact lookupRes_removeRes_other s r x hx
  · have : lockSubRef s r =
        (updateRes s r (fun l => { l with ref := lk.ref - 1 }), decide (lk.ref - 1 < 0)) := by
      simp [lockSubRef, h, hz]
    rw [this]
    refine ⟨by simp [hfatal], ?_, ?_, ?_⟩
    · show WF (updateRes s r (fun l => { l with ref := lk.ref - 1 }))
      exact WF_updateRes_of hwf (fun l hl => show 0 < lk.ref - 1 by omega)
    · show refOf (updateRes s r (fun l => { l with ref := lk.ref - 1 })) r = lk.ref - 1
      rw [refOf, lookupRes_updateRes, if_pos rfl, h]
      rfl
    · intro x hx
      show lookupRes (updateRes s r (fun l => { l with ref := lk.ref - 1 })) x = lookupRes s x
      rw [lookupRes_updateRes, if_neg hx]

theorem updateRes_updateRes (s : LockMap) (r : String) (f g : NsLock → NsLock) :
    updateRes (updateRes s r f) r g = updateRes s r (fun x => g (f x)) := by
  induction s with
  | nil => rfl
  | cons e rest ih =>
    obtain ⟨k, v⟩ := e
    by_cases h : k = r
    · rw [updateRes_cons, if_pos h, updateRes_cons, if_pos h, updateRes_cons, if_pos h, ih]
    · rw [updateRes_cons, if_neg h, updateRes_cons, if_neg h, updateRes_cons, if_neg h, ih]

theorem updateRes_eq_self {s : LockMap} {r : String} {f : NsLock → NsLock}
    (h : ∀ e ∈ s, e.1 = r → f e.2 = e.2) : updateRes s r f = s := by
  induction s with
  | nil => rfl
  | cons e rest ih =>
    obtain ⟨k, v⟩ := e
    by_cases hk : k = r
    · rw [updateRes_cons, if_pos hk, h (k, v) (List.mem_cons_self _ _) hk,
        ih (fun e he hr => h e (List.mem_cons_of_mem _ he) hr)]
    · rw [updateRes_cons, if_neg hk, ih (fun e he hr => h e (List.mem_cons_of_mem _ he) hr)]

/-! ## Specification of `NsLockMap.lock` and `NsLockMap.unlock` -/

theorem refOf_updateRes_refpres (s : LockMap) (r : String) (f : NsLock → NsLock)
    (hf : ∀ lk, (f lk).ref = lk.ref) (x : String) :
    refOf (updateRes s r f) x = refOf s x := by
  rw [refOf, lookupRes_updateRes]
  by_cases h : x = r
  · rw [if_pos h, h, refOf]
    cases lookupRes s r with
    | none => rfl
    | some lk => simp [hf]
  · rw [if_neg h, refOf]

/-- The granted branch of `NsLockMap.lock`: the lock is reported taken, the
reference count of the resource is up by one, other entries are untouched,
well-formedness is preserved, no fatal condition fires, and the trace
records the grant. -/
theorem lock_true_spec {s : LockMap} (volume path lockSource opsID : String)
    (m : Bool) (t : Nat) (hwf : WF s) :
    (lock s volume path lockSource opsID m t true).locked = true ∧
    (lock s volume path lockSource opsID m t true).fatal = false ∧
    (lock s volume path lockSource opsID m t true).events
      = [.granted (pathJoin volume path) m] ∧
    WF (lock s volume path lockSource opsID m t true).lockMap ∧
    refOf (lock s volume path lockSource opsID m t true).lockMap (pathJoin volume path)
      = refOf s (pathJoin volume path) + 1 ∧
    (∀ x, x ≠ pathJoin volume path →
      lookupRes (lock s volume path lockSource opsID m t true).lockMap x = lookupRes s x) := by
  refine ⟨rfl, rfl, rfl, ?_, ?_, ?_⟩
  · show WF (updateRes (lockAddRef s (pathJoin volume path)) (pathJoin volume path)
      (fun lk => { lk with lrw := lk.lrw.acquire m }))
    exact WF_updateRes_of (WF_lockAddRef hwf _) (fun lk h => h)
  · show refOf (updateRes (lockAddRef s (pathJoin volume path)) (pathJoin volume path)
      (fun lk => { lk with lrw := lk.lrw.acquire m })) (pathJoin volume path)
      = refOf s (pathJoin volume path) + 1
    rw [refOf_updateRes_refpres (lockAddRef s (pathJoin volume path)) (pathJoin volume path)
      (fun lk => { lk with lrw := lk.lrw.acquire m }) (fun lk => rfl),
      refOf_lockAddRef_self]
  · intro x hx
    show lookupRes (updateRes (lockAddRef s (pathJoin volume path)) (pathJoin volume path)
      (fun lk => { lk with lrw := lk.lrw.acquire m })) x = lookupRes s x
    rw [lookupRes_updateRes, if_neg hx, lookupRes_lockAddRef_other hx]

/-- The failed branch of `NsLockMap.lock`: on a well-formed registry the
increment/decrement pair restores the map exactly, no fatal condition
fires, and no trace event is emitted. -/
theorem lock_false_eq {s : LockMap} (volume path lockSource opsID : String)
    (m : Bool) (t : Nat) (hwf : WF s) :
    lock s volume path lockSource opsID m t false =
      { locked := false, lockMap := s, fatal := false, events := [] } := by
  show LockResult.mk false (lockSubRef (lockAddRef s (pathJoin volume path)) (pathJoin volume path)).1
      (lockSubRef (lockAddRef s (pathJoin volume path)) (pathJoin volume path)).2 [] = _
  set r := pathJoin volume path with hr
  cases h : lookupRes s r with
  | none =>
    rw [lockAddRef_of_none h]
    have hlk : lookupRes (s ++ [(r, { ref := 1, lrw := LRW.new })]) r
        = some { ref := 1, lrw := LRW.new } := by
      rw [lookupRes_append, h, lookupRes_cons, if_pos rfl]
      rfl
    have hstep : lockSubRef (s ++ [(r, { ref := 1, lrw := LRW.new })]) r
        = (removeRes (s ++ [(r, { ref := 1, lrw := LRW.new })]) r, false) := by
      simp [lockSubRef, hlk]
    rw [hstep, removeRes_append_self _ h]
  | some lk =>
    have hpos : 0 < lk.ref := refOf_pos_of_WF hwf h
    rw [lockAddRef_of_some h]
    have hlk : lookupRes (updateRes s r (fun l => { l with ref := l.ref + 1 })) r
        = some { lk with ref := lk.ref + 1 } := by
      rw [lookupRes_updateRes, if_pos rfl, h]
      rfl
    have hz : ¬ ({ lk with ref := lk.ref + 1 } : NsLock).ref - 1 = 0 := by
      show ¬ lk.ref + 1 - 1 = 0
      omega
    have hstep : lockSubRef (updateRes s r (fun l => { l with ref := l.ref + 1 })) r
        = (updateRes (updateRes s r (fun l => { l with ref := l.ref + 1 })) r
            (fun l => { l with ref := ({ lk with ref := lk.ref + 1 } : NsLock).ref - 1 }),
           decide (({ lk with ref := lk.ref + 1 } : NsLock).ref - 1 < 0)) := by
      simp only [lockSubRef, hlk, if_neg hz]
    rw [hstep, updateRes_updateRes]
    have hfatal : (decide (({ lk with ref := lk.ref + 1 } : NsLock).ref - 1 < 0)) = false := by
      have : ¬ lk.ref + 1 - 1 < 0 := by omega
      exact decide_eq_false this
    rw [hfatal]
    have hid : updateRes s r (fun x =>
        { ({ x with ref := x.ref + 1 } : NsLock) with
            ref := ({ lk with ref := lk.ref + 1 } : NsLock).ref - 1 }) = s := by
      apply updateRes_eq_self
      intro e he hkey
      have hmem : (r, e.2) ∈ s := by
        rw [← hkey, Prod.mk.eta]
        exact he
      have h2 : e.2 = lk := by
        have hl := lookupRes_of_mem_nodup hwf.1 hmem
        rw [h] at hl
        injection hl with h2
        exact h2.symm
      rw [h2]
      show ({ ref := lk.ref + 1 - 1, lrw := lk.lrw } : NsLock) = lk
      have h3 : lk.ref + 1 - 1 = lk.ref := by omega
      rw [h3]
    rw [hid]

/-- `NsLockMap.unlock` on an absent resource silently returns: the map is
unchanged, no mutex release happens, no fatal condition fires (lines
119-121). -/
theorem unlock_absent_eq {s : LockMap} {volume path : String} (m : Bool)
    (h : lookupRes s (pathJoin volume path) = none) :
    unlock s volume path m = { lockMap := s, fatal := false, events := [] } := by
  simp only [unlock, h]

/-- `NsLockMap.unlock` on a present resource: the entry mutex is released
once, the reference count drops by one, other entries are untouched,
well-formedness is preserved and no fatal condition fires. -/
theorem unlock_present_spec {s : LockMap} {volume path : String} {lk : NsLock} (m : Bool)
    (hwf : WF s) (h : lookupRes s (pathJoin volume path) = some lk) :
    (unlock s volume path m).fatal = false ∧
    WF (unlock s volume path m).lockMap ∧
    (unlock s volume path m).events = [.mutexUnlock (pathJoin volume path) m] ∧
    refOf (unlock s volume path m).lockMap (pathJoin volume path) = lk.ref - 1 ∧
    (∀ x, x ≠ pathJoin volume path →
      lookupRes (unlock s volume path m).lockMap x = lookupRes s x) := by
  have hunlock : unlock s volume path m =
      { lockMap := (lockSubRef (updateRes s (pathJoin volume path)
          (fun l => { l with lrw := l.lrw.release m })) (pathJoin volume path)).1,
        fatal := (lockSubRef (updateRes s (pathJoin volume path)
          (fun l => { l with lrw := l.lrw.release m })) (pathJoin volume path)).2,
        events := [.mutexUnlock (pathJoin volume path) m] } := by
    simp only [unlock, h]
  have hwf1 : WF (updateRes s (pathJoin volume path)
      (fun l => { l with lrw := l.lrw.release m })) :=
    WF_updateRes_of hwf (fun l hl => hl)
  have hlk1 : lookupRes (updateRes s (pathJoin volume path)
      (fun l => { l with lrw := l.lrw.release m })) (pathJoin volume path)
      = some { lk with lrw := lk.lrw.release m } := by
    rw [lookupRes_updateRes, if_pos rfl, h]
    rfl
  obtain ⟨hf, hw, href, hoth⟩ := lockSubRef_spec hwf1 hlk1
  rw [hunlock]
  refine ⟨hf, hw, rfl, ?_, ?_⟩
  · rw [href]
  · intro x hx
    rw [hoth x hx, lookupRes_updateRes, if_neg hx]

/-! ## The release loop -/

theorem countS_cons (x r : String) (l : List String) :
    countS r (x :: l) = (if x = r then 1 else 0) + countS r l := rfl

/-- The unwind/release loop over a list of previously granted paths: when
the registry is well formed and holds at least as many references per
resource as the list claims, the loop releases the entry mutex of each
listed path exactly once (in order and in the given mode), never hits a
fatal condition, preserves well-formedness, and drops each reference
count accordingly. -/
theorem releaseAll_spec (volume : String) (m : Bool) :
    ∀ (acquired : List String) (s : LockMap), WF s →
      (∀ r, (countS r (pathsJoinAll volume acquired) : Int) ≤ refOf s r) →
      (releaseAll volume m s acquired).fatal = false ∧
      WF (releaseAll volume m s acquired).lockMap ∧
      (releaseAll volume m s acquired).events
        = (pathsJoinAll volume acquired).map (fun res => Event.mutexUnlock res m) ∧
      (∀ r, refOf (releaseAll volume m s acquired).lockMap r
        = refOf s r - countS r (pathsJoinAll volume acquired)) := by
  intro acquired
  induction acquired with
  | nil =>
    intro s hwf hbound
    refine ⟨rfl, hwf, rfl, ?_⟩
    intro r
    show refOf s r = refOf s r - countS r []
    simp [countS]
  | cons p rest ih =>
    intro s hwf hbound
    have hres : (countS (pathJoin volume p) (pathsJoinAll volume (p :: rest)) : Int)
        ≤ refOf s (pathJoin volume p) := hbound (pathJoin volume p)
    have hge1 : (1 : Int) ≤ refOf s (pathJoin volume p) := by
      have : countS (pathJoin volume p) (pathsJoinAll volume (p :: rest)) ≥ 1 := by
        show countS (pathJoin volume p) (pathJoin volume p :: pathsJoinAll volume rest) ≥ 1
        rw [countS_cons, if_pos rfl]
        omega
      omega
    obtain ⟨lk, hlk, hlkref⟩ := lookupRes_some_of_refOf_pos s (pathJoin volume p) (by omega)
    obtain ⟨hf, hw, hev, href, hoth⟩ := unlock_present_spec m hwf hlk
    have hbound' : ∀ r, (countS r (pathsJoinAll volume rest) : Int)
        ≤ refOf (unlock s volume p m).lockMap r := by
      intro r
      by_cases hcase : r = pathJoin volume p
      · rw [hcase, href]
        have hc : countS (pathJoin volume p) (pathsJoinAll volume (p :: rest))
            = 1 + countS (pathJoin volume p) (pathsJoinAll volume rest) := by
          show countS (pathJoin volume p) (pathJoin volume p :: pathsJoinAll volume rest) = _
          rw [countS_cons, if_pos rfl]
        have hb := hbound (pathJoin volume p)
        rw [hc] at hb
        push_cast at hb ⊢
        omega
      · rw [refOf, hoth r hcase]
        have hc : countS r (pathsJoinAll volume (p :: rest))
            = countS r (pathsJoinAll volume rest) := by
          show countS r (pathJoin volume p :: pathsJoinAll volume rest) = _
          rw [countS_cons, if_neg (fun hh => hcase hh.symm)]
          omega
        have := hbound r
        rw [hc] at this
        rw [refOf] at this
        exact this
    obtain ⟨ihf, ihw, ihev, ihref⟩ := ih (unlock s volume p m).lockMap hw hbound'
    have hunfold : releaseAll volume m s (p :: rest) =
        { lockMap := (releaseAll volume m (unlock s volume p m).lockMap rest).lockMap,
          fatal := (unlock s volume p m).fatal
            || (releaseAll volume m (unlock s volume p m).lockMap rest).fatal,
          events := (unlock s volume p m).events
            ++ (releaseAll volume m (unlock s volume p m).lockMap rest).events } := rfl
    rw [hunfold]
    refine ⟨?_, ihw, ?_, ?_⟩
    · rw [hf, ihf]
      rfl
    · rw [hev, ihev]
      rfl
    · intro r
      show refOf (releaseAll volume m (unlock s volume p m).lockMap rest).lockMap r = _
      rw [ihref r]
      by_cases hcase : r = pathJoin volume p
      · rw [hcase, href]
        have hc : countS (pathJoin volume p) (pathsJoinAll volume (p :: rest))
            = 1 + countS (pathJoin volume p) (pathsJoinAll volume rest) := by
          show countS (pathJoin volume p) (pathJoin volume p :: pathsJoinAll volume rest) = _
          rw [countS_cons, if_pos rfl]
        rw [hc, ← hlkref]
        push_cast
        omega
      · rw [refOf, hoth r hcase, ← refOf]
        have hc : countS r (pathsJoinAll volume (p :: rest))
            = countS r (pathsJoinAll volume rest) := by
          show countS r (pathJoin volume p :: pathsJoinAll volume rest) = _
          rw [countS_cons, if_neg (fun hh => hcase hh.symm)]
          omega
        rw [hc]

/-! ## Unfolding equations for the acquire loop -/

theorem lock_locked (s : LockMap) (volume path ls o : String) (m : Bool) (t : Nat) (g : Bool) :
    (lock s volume path ls o m t g).locked = g := by
  cases g <;> rfl

theorem localGo_nil (volume opsID : String) (m : Bool) (ctx : Ctx) (dt : DynamicTimeout)
    (t1 t2 : Nat) (acquired : List String) (gs : List Bool) (s : LockMap) :
    localGo volume opsID m ctx dt t1 t2 [] acquired gs s =
      { ret := some ctx, err := false, lockMap := s, dt := dt.LogSuccess (t2 - t1),
        fatal := false, trace := [.dtLogSuccess (t2 - t1)] } := rfl

theorem localGo_cons_true (volume opsID : String) (m : Bool) (ctx : Ctx) (dt : DynamicTimeout)
    (t1 t2 : Nat) (path : String) (rest acquired : List String) (gs : List Bool) (s : LockMap)
    (hg : gs.headD false = true) :
    localGo volume opsID m ctx dt t1 t2 (path :: rest) acquired gs s =
      { localGo volume opsID m ctx dt t1 t2 rest (acquired ++ [path]) gs.tail
          (lock s volume path "lockSource" opsID m dt.Timeout true).lockMap with
        trace := Event.subAcquire path m dt.Timeout true ::
          ((lock s volume path "lockSource" opsID m dt.Timeout true).events
            ++ (localGo volume opsID m ctx dt t1 t2 rest (acquired ++ [path]) gs.tail
                 (lock s volume path "lockSource" opsID m dt.Timeout true).lockMap).trace),
        fatal := (lock s volume path "lockSource" opsID m dt.Timeout true).fatal
          || (localGo volume opsID m ctx dt t1 t2 rest (acquired ++ [path]) gs.tail
               (lock s volume path "lockSource" opsID m dt.Timeout true).lockMap).fatal } := by
  conv_lhs => rw [localGo]
  rw [hg]
  rw [if_pos (by rw [lock_locked] :
    (lock s volume path "lockSource" opsID m dt.Timeout true).locked = true)]

theorem localGo_cons_false (volume opsID : String) (m : Bool) (ctx : Ctx) (dt : DynamicTimeout)
    (t1 t2 : Nat) (path : String) (rest acquired : List String) (gs : List Bool) (s : LockMap)
    (hg : gs.headD false = false) :
    localGo volume opsID m ctx dt t1 t2 (path :: rest) acquired gs s =
      { ret := none, err := true,
        lockMap := (releaseAll volume m
          (lock s volume path "lockSource" opsID m dt.Timeout false).lockMap acquired).lockMap,
        dt := dt.LogFailure,
        fatal := (lock s volume path "lockSource" opsID m dt.Timeout false).fatal
          || (releaseAll volume m
              (lock s volume path "lockSource" opsID m dt.Timeout false).lockMap acquired).fatal,
        trace := Event.subAcquire path m dt.Timeout false ::
          ((lock s volume path "lockSource" opsID m dt.Timeout false).events
            ++ [Event.dtLogFailure]
            ++ (releaseAll volume m
                (lock s volume path "lockSource" opsID m dt.Timeout false).lockMap acquired).events) } := by
  conv_lhs => rw [localGo]
  rw [hg]
  rw [if_neg (by rw [lock_locked]; exact Bool.false_ne_true :
    ¬ (lock s volume path "lockSource" opsID m dt.Timeout false).locked = true)]

/-! ## Shape of the traces -/

theorem countE_eq_zero {e : Event} {l : List Event} (h : e ∉ l) : countE e l = 0 := by
  induction l with
  | nil => rfl
  | cons x xs ih =>
    rw [countE_cons, if_neg (fun hx : x = e => h (hx ▸ List.mem_cons_self x xs)),
      ih (fun hm => h (List.mem_cons_of_mem x hm))]

theorem unlock_events_shape (s : LockMap) (volume path : String) (m : Bool) :
    ∀ e ∈ (unlock s volume path m).events, ∃ rr, e = Event.mutexUnlock rr m := by
  cases hl : lookupRes s (pathJoin volume path) with
  | none => simp [unlock, hl]
  | some lk =>
    intro e he
    simp only [unlock, hl] at he
    simp only [List.mem_singleton] at he
    exact ⟨pathJoin volume path, he⟩

theorem releaseAll_events_shape (volume : String) (m : Bool) :
    ∀ (acquired : List String) (s : LockMap),
      ∀ e ∈ (releaseAll volume m s acquired).events, ∃ rr, e = Event.mutexUnlock rr m := by
  intro acquired
  induction acquired with
  | nil => intro s e he; simp [releaseAll] at he
  | cons p rest ih =>
    intro s e he
    have : (releaseAll volume m s (p :: rest)).events
        = (unlock s volume p m).events
          ++ (releaseAll volume m (unlock s volume p m).lockMap rest).events := rfl
    rw [this] at he
    rcases List.mem_append.mp he with h | h
    · exact unlock_events_shape s volume p m e h
    · exact ih (unlock s volume p m).lockMap e h

theorem lock_true_events_eq (s : LockMap) (volume path ls o : String) (m : Bool) (t : Nat) :
    (lock s volume path ls o m t true).events = [Event.granted (pathJoin volume path) m] := rfl

theorem lock_false_events_eq (s : LockMap) (volume path ls o : String) (m : Bool) (t : Nat) :
    (lock s volume path ls o m t false).events = [] := rfl

/-- Every per-path sub-acquire recorded by the loop was attempted in the
loop's mode and with the timeout bound read from the DynamicTimeout state
current at the start of the call. -/
theorem localGo_subAcquire_shape (volume opsID : String) (m : Bool) (ctx : Ctx)
    (dt : DynamicTimeout) (t1 t2 : Nat) :
    ∀ (pending acquired : List String) (gs : List Bool) (s : LockMap)
      (p : String) (mm : Bool) (t : Nat) (g : Bool),
      Event.subAcquire p mm t g
          ∈ (localGo volume opsID m ctx dt t1 t2 pending acquired gs s).trace →
      t = dt.Timeout ∧ mm = m := by
  intro pending
  induction pending with
  | nil =>
    intro acquired gs s p mm t g h
    rw [localGo_nil] at h
    simp at h
  | cons path rest ih =>
    intro acquired gs s p mm t g h
    cases hg : gs.headD false with
    | true =>
      rw [localGo_cons_true volume opsID m ctx dt t1 t2 path rest acquired gs s hg] at h
      simp only [lock_true_events_eq, List.mem_cons, List.mem_append,
        List.mem_singleton] at h
      rcases h with h | h | h
      · injection h with h1 h2 h3 h4
        exact ⟨h3, h2⟩
      · exact absurd h (by simp)
      · exact ih _ gs.tail _ p mm t g h
    | false =>
      rw [localGo_cons_false volume opsID m ctx dt t1 t2 path rest acquired gs s hg] at h
      simp only [lock_false_events_eq, List.nil_append, List.mem_cons,
        List.mem_append, List.mem_singleton] at h
      rcases h with h | h | h
      · injection h with h1 h2 h3 h4
        exact ⟨h3, h2⟩
      · exact absurd h (by simp)
      · obtain ⟨rr, hrr⟩ := releaseAll_events_shape volume m acquired _ _ h
        exact absurd hrr (by simp)

theorem not_mem_releaseAll_events (volume : String) (m : Bool) (acquired : List String)
    (s : LockMap) (e : Event) (he : ∀ rr, e ≠ Event.mutexUnlock rr m) :
    e ∉ (releaseAll volume m s acquired).events := fun hmem => by
  obtain ⟨rr, hrr⟩ := releaseAll_events_shape volume m acquired s e hmem
  exact he rr hrr

theorem countP_releaseAll_isDtLogSuccess (volume : String) (m : Bool)
    (acquired : List String) (s : LockMap) :
    List.countP isDtLogSuccess (releaseAll volume m s acquired).events = 0 := by
  rw [List.countP_eq_zero]
  intro e he
  obtain ⟨rr, hrr⟩ := releaseAll_events_shape volume m acquired s e he
  rw [hrr]
  simp [isDtLogSuccess]

/-- Counts of grant and release events in modes other than the loop's mode
are zero: every granted sub-lock and every unwind release uses the mode of
the call. -/
theorem localGo_mode_counts (volume opsID : String) (m : Bool) (ctx : Ctx)
    (dt : DynamicTimeout) (t1 t2 : Nat) :
    ∀ (pending acquired : List String) (gs : List Bool) (s : LockMap)
      (rr : String) (mm : Bool), mm ≠ m →
      countE (.granted rr mm) (localGo volume opsID m ctx dt t1 t2 pending acquired gs s).trace = 0 ∧
      countE (.mutexUnlock rr mm)
        (localGo volume opsID m ctx dt t1 t2 pending acquired gs s).trace = 0 := by
  intro pending
  induction pending with
  | nil =>
    intro acquired gs s rr mm hmm
    rw [localGo_nil]
    exact ⟨by simp [countE], by simp [countE]⟩
  | cons path rest ih =>
    intro acquired gs s rr mm hmm
    cases hg : gs.headD false with
    | true =>
      rw [localGo_cons_true volume opsID m ctx dt t1 t2 path rest acquired gs s hg]
      obtain ⟨ih1, ih2⟩ := ih (acquired ++ [path]) gs.tail
        (lock s volume path "lockSource" opsID m dt.Timeout true).lockMap rr mm hmm
      constructor
      · simp only [lock_true_events_eq, List.singleton_append, countE_cons, ih1,
          Event.granted.injEq]
        simp [Ne.symm hmm]
      · simp only [lock_true_events_eq, List.singleton_append, countE_cons, ih2]
        simp
    | false =>
      rw [localGo_cons_false volume opsID m ctx dt t1 t2 path rest acquired gs s hg]
      have hg0 : countE (.granted rr mm)
          (releaseAll volume m
            (lock s volume path "lockSource" opsID m dt.Timeout false).lockMap acquired).events
          = 0 :=
        countE_eq_zero (not_mem_releaseAll_events _ _ _ _ _ (fun r2 => by simp))
      have hu0 : countE (.mutexUnlock rr mm)
          (releaseAll volume m
            (lock s volume path "lockSource" opsID m dt.Timeout false).lockMap acquired).events
          = 0 :=
        countE_eq_zero (not_mem_releaseAll_events _ _ _ _ _ (fun r2 => by
          simp only [ne_eq, Event.mutexUnlock.injEq, not_and]
          intro _
          exact hmm))
      constructor
      · simp only [lock_false_events_eq, List.nil_append, countE_cons, countE_append, hg0]
        simp [countE]
      · simp only [lock_false_events_eq, List.nil_append, countE_cons, countE_append, hu0]
        simp [countE]

/-- Success path of the acquire loop: the caller's context is returned,
`LogSuccess` is applied exactly once with the elapsed time, `LogFailure`
never fires, no entry mutex is released, and every pending path is
granted in the loop's mode. -/
theorem localGo_success_spec (volume opsID : String) (m : Bool) (ctx : Ctx)
    (dt : DynamicTimeout) (t1 t2 : Nat) :
    ∀ (pending acquired : List String) (gs : List Bool) (s : LockMap),
      (localGo volume opsID m ctx dt t1 t2 pending acquired gs s).err = false →
      (localGo volume opsID m ctx dt t1 t2 pending acquired gs s).ret = some ctx ∧
      (localGo volume opsID m ctx dt t1 t2 pending acquired gs s).dt
        = dt.LogSuccess (t2 - t1) ∧
      countE .dtLogFailure (localGo volume opsID m ctx dt t1 t2 pending acquired gs s).trace = 0 ∧
      List.countP isDtLogSuccess
        (localGo volume opsID m ctx dt t1 t2 pending acquired gs s).trace = 1 ∧
      countE (.dtLogSuccess (t2 - t1))
        (localGo volume opsID m ctx dt t1 t2 pending acquired gs s).trace = 1 ∧
      List.countP isMutexUnlock
        (localGo volume opsID m ctx dt t1 t2 pending acquired gs s).trace = 0 ∧
      ∀ p ∈ pending, Event.granted (pathJoin volume p) m
        ∈ (localGo volume opsID m ctx dt t1 t2 pending acquired gs s).trace := by
  intro pending
  induction pending with
  | nil =>
    intro acquired gs s herr
    rw [localGo_nil]
    refine ⟨rfl, rfl, by simp [countE], by simp [isDtLogSuccess], by simp [countE],
      by simp [isMutexUnlock], by simp⟩
  | cons path rest ih =>
    intro acquired gs s herr
    cases hg : gs.headD false with
    | true =>
      rw [localGo_cons_true volume opsID m ctx dt t1 t2 path rest acquired gs s hg] at herr ⊢
      have herr' : (localGo volume opsID m ctx dt t1 t2 rest (acquired ++ [path]) gs.tail
          (lock s volume path "lockSource" opsID m dt.Timeout true).lockMap).err = false := herr
      obtain ⟨i1, i2, i3, i4, i5, i6, i7⟩ := ih (acquired ++ [path]) gs.tail
        (lock s volume path "lockSource" opsID m dt.Timeout true).lockMap herr'
      refine ⟨i1, i2, ?_, ?_, ?_, ?_, ?_⟩
      · rw [lock_true_events_eq, List.singleton_append, countE_cons, countE_cons, i3]
        simp
      · rw [lock_true_events_eq, List.singleton_append, List.countP_cons, List.countP_cons, i4]
        simp [isDtLogSuccess]
      · rw [lock_true_events_eq, List.singleton_append, countE_cons, countE_cons, i5]
        simp
      · rw [lock_true_events_eq, List.singleton_append, List.countP_cons, List.countP_cons, i6]
        simp [isMutexUnlock]
      · intro p hp
        rcases List.mem_cons.mp hp with hp | hp
        · subst hp
          simp [lock_true_events_eq]
        · have hmem := i7 p hp
          simp only [lock_true_events_eq, List.singleton_append, List.mem_cons]
          exact Or.inr (Or.inr hmem)
    | false =>
      rw [localGo_cons_false volume opsID m ctx dt t1 t2 path rest acquired gs s hg] at herr
      exact absurd herr (by simp)

/-- Failure path of the acquire loop: a nil context is returned,
`LogFailure` is applied exactly once and `LogSuccess` never, and the
failure stems from an actual failed sub-acquire recorded in the trace. -/
theorem localGo_failure_spec (volume opsID : String) (m : Bool) (ctx : Ctx)
    (dt : DynamicTimeout) (t1 t2 : Nat) :
    ∀ (pending acquired : List String) (gs : List Bool) (s : LockMap),
      (localGo volume opsID m ctx dt t1 t2 pending acquired gs s).err = true →
      (localGo volume opsID m ctx dt t1 t2 pending acquired gs s).ret = none ∧
      (localGo volume opsID m ctx dt t1 t2 pending acquired gs s).dt = dt.LogFailure ∧
      countE .dtLogFailure (localGo volume opsID m ctx dt t1 t2 pending acquired gs s).trace = 1 ∧
      List.countP isDtLogSuccess
        (localGo volume opsID m ctx dt t1 t2 pending acquired gs s).trace = 0 ∧
      ∃ p t, Event.subAcquire p m t false
        ∈ (localGo volume opsID m ctx dt t1 t2 pending acquired gs s).trace := by
  intro pending
  induction pending with
  | nil =>
    intro acquired gs s herr
    rw [localGo_nil] at herr
    exact absurd herr (by simp)
  | cons path rest ih =>
    intro acquired gs s herr
    cases hg : gs.headD false with
    | true =>
      rw [localGo_cons_true volume opsID m ctx dt t1 t2 path rest acquired gs s hg] at herr ⊢
      have herr' : (localGo volume opsID m ctx dt t1 t2 rest (acquired ++ [path]) gs.tail
          (lock s volume path "lockSource" opsID m dt.Timeout true).lockMap).err = true := herr
      obtain ⟨i1, i2, i3, i4, i5⟩ := ih (acquired ++ [path]) gs.tail
        (lock s volume path "lockSource" opsID m dt.Timeout true).lockMap herr'
      refine ⟨i1, i2, ?_, ?_, ?_⟩
      · rw [lock_true_events_eq, List.singleton_append, countE_cons, countE_cons, i3]
        simp
      · rw [lock_true_events_eq, List.singleton_append, List.countP_cons, List.countP_cons, i4]
        simp [isDtLogSuccess]
      · obtain ⟨p, t, hmem⟩ := i5
        refine ⟨p, t, ?_⟩
        simp only [lock_true_events_eq, List.singleton_append, List.mem_cons]
        exact Or.inr (Or.inr hmem)
    | false =>
      rw [localGo_cons_false volume opsID m ctx dt t1 t2 path rest acquired gs s hg]
      refine ⟨rfl, rfl, ?_, ?_, ?_⟩
      · rw [lock_false_events_eq, List.nil_append, countE_cons, countE_append, countE_cons,
          countE_eq_zero (not_mem_releaseAll_events _ _ _ _ _ (fun r2 => by simp))]
        simp [countE]
      · rw [lock_false_events_eq, List.nil_append, List.countP_cons, List.countP_append,
          List.countP_cons, countP_releaseAll_isDtLogSuccess]
        simp [isDtLogSuccess]
      · exact ⟨path, dt.Timeout, by simp⟩

theorem countS_append (r : String) (l1 l2 : List String) :
    countS r (l1 ++ l2) = countS r l1 + countS r l2 := by
  induction l1 with
  | nil => simp [countS]
  | cons x xs ih => simp [countS, ih]; ring

theorem pathsJoinAll_append (volume : String) (l1 l2 : List String) :
    pathsJoinAll volume (l1 ++ l2) = pathsJoinAll volume l1 ++ pathsJoinAll volume l2 :=
  List.map_append _ l1 l2

theorem lock_true_fatal_eq (s : LockMap) (volume path ls o : String) (m : Bool) (t : Nat) :
    (lock s volume path ls o m t true).fatal = false := rfl

/-- Central invariant of the acquire loop: starting from a well-formed
registry whose reference counts cover the already-acquired paths, the loop
never hits a fatal condition, leaves the registry well-formed, and — on
the timeout path — balances releases against grants: each resource is
released (in the loop's mode) exactly as many times as it was granted
during the loop plus once per previously-acquired occurrence. -/
theorem localGo_balance (volume opsID : String) (m : Bool) (ctx : Ctx)
    (dt : DynamicTimeout) (t1 t2 : Nat) :
    ∀ (pending acquired : List String) (gs : List Bool) (s : LockMap),
      WF s →
      (∀ r, (countS r (pathsJoinAll volume acquired) : Int) ≤ refOf s r) →
      (localGo volume opsID m ctx dt t1 t2 pending acquired gs s).fatal = false ∧
      WF (localGo volume opsID m ctx dt t1 t2 pending acquired gs s).lockMap ∧
      ((localGo volume opsID m ctx dt t1 t2 pending acquired gs s).err = true →
        ∀ r, countE (.mutexUnlock r m)
            (localGo volume opsID m ctx dt t1 t2 pending acquired gs s).trace
          = countE (.granted r m)
              (localGo volume opsID m ctx dt t1 t2 pending acquired gs s).trace
            + countS r (pathsJoinAll volume acquired)) := by
  intro pending
  induction pending with
  | nil =>
    intro acquired gs s hwf hbound
    rw [localGo_nil]
    exact ⟨rfl, hwf, fun herr => absurd herr (by simp)⟩
  | cons path rest ih =>
    intro acquired gs s hwf hbound
    cases hg : gs.headD false with
    | true =>
      obtain ⟨hl1, hl2, hl3, hl4, hl5, hl6⟩ :=
        lock_true_spec volume path "lockSource" opsID m dt.Timeout hwf
      have hbound' : ∀ r, (countS r (pathsJoinAll volume (acquired ++ [path])) : Int)
          ≤ refOf (lock s volume path "lockSource" opsID m dt.Timeout true).lockMap r := by
        intro r
        rw [pathsJoinAll_append, countS_append]
        by_cases hr : pathJoin volume path = r
        · rw [← hr, hl5]
          have hb := hbound (pathJoin volume path)
          have hc : countS (pathJoin volume path)
              (pathsJoinAll volume [path]) = 1 := by
            show countS (pathJoin volume path) [pathJoin volume path] = 1
            rw [countS_cons, if_pos rfl]
            rfl
          rw [hc]
          push_cast
          omega
        · have hor : refOf (lock s volume path "lockSource" opsID m dt.Timeout true).lockMap r
              = refOf s r := by
            rw [refOf, hl6 r (fun hh => hr hh.symm), refOf]
          rw [hor]
          have hc : countS r (pathsJoinAll volume [path]) = 0 := by
            show countS r [pathJoin volume path] = 0
            rw [countS_cons, if_neg hr]
            rfl
          rw [hc]
          have hb := hbound r
          push_cast
          omega
      obtain ⟨ihf, ihw, ihbal⟩ := ih (acquired ++ [path]) gs.tail
        (lock s volume path "lockSource" opsID m dt.Timeout true).lockMap hl4 hbound'
      rw [localGo_cons_true volume opsID m ctx dt t1 t2 path rest acquired gs s hg]
      refine ⟨?_, ihw, ?_⟩
      · show ((lock s volume path "lockSource" opsID m dt.Timeout true).fatal
          || (localGo volume opsID m ctx dt t1 t2 rest (acquired ++ [path]) gs.tail
               (lock s volume path "lockSource" opsID m dt.Timeout true).lockMap).fatal) = false
        rw [lock_true_fatal_eq, ihf]
        rfl
      · intro herr r
        have herr' : (localGo volume opsID m ctx dt t1 t2 rest (acquired ++ [path]) gs.tail
            (lock s volume path "lockSource" opsID m dt.Timeout true).lockMap).err = true := herr
        have hb := ihbal herr' r
        rw [pathsJoinAll_append, countS_append] at hb
        show countE (.mutexUnlock r m) (Event.subAcquire path m dt.Timeout true ::
            ((lock s volume path "lockSource" opsID m dt.Timeout true).events
              ++ (localGo volume opsID m ctx dt t1 t2 rest (acquired ++ [path]) gs.tail
                   (lock s volume path "lockSource" opsID m dt.Timeout true).lockMap).trace))
          = countE (.granted r m) (Event.subAcquire path m dt.Timeout true ::
            ((lock s volume path "lockSource" opsID m dt.Timeout true).events
              ++ (localGo volume opsID m ctx dt t1 t2 rest (acquired ++ [path]) gs.tail
                   (lock s volume path "lockSource" opsID m dt.Timeout true).lockMap).trace))
            + countS r (pathsJoinAll volume acquired)
        rw [lock_true_events_eq, List.singleton_append, countE_cons, countE_cons,
          countE_cons, countE_cons]
        by_cases hr : pathJoin volume path = r
        · have hc : countS r (pathsJoinAll volume [path]) = 1 := by
            show countS r [pathJoin volume path] = 1
            rw [countS_cons, if_pos hr]
            rfl
          rw [hc] at hb
          rw [if_neg (show ¬ Event.subAcquire path m dt.Timeout true
              = Event.mutexUnlock r m by simp),
            if_neg (show ¬ Event.granted (pathJoin volume path) m
              = Event.mutexUnlock r m by simp),
            if_neg (show ¬ Event.subAcquire path m dt.Timeout true
              = Event.granted r m by simp),
            if_pos (show Event.granted (pathJoin volume path) m
              = Event.granted r m by rw [hr])]
          omega
        · have hc : countS r (pathsJoinAll volume [path]) = 0 := by
            show countS r [pathJoin volume path] = 0
            rw [countS_cons, if_neg hr]
            rfl
          rw [hc] at hb
          rw [if_neg (show ¬ Event.subAcquire path m dt.Timeout true
              = Event.mutexUnlock r m by simp),
            if_neg (show ¬ Event.granted (pathJoin volume path) m
              = Event.mutexUnlock r m by simp),
            if_neg (show ¬ Event.subAcquire path m dt.Timeout true
              = Event.granted r m by simp),
            if_neg (show ¬ Event.granted (pathJoin volume path) m
              = Event.granted r m by
              intro hh
              injection hh with h1 h2
              exact hr h1)]
          omega
    | false =>
      rw [localGo_cons_false volume opsID m ctx dt t1 t2 path rest acquired gs s hg,
        lock_false_eq volume path "lockSource" opsID m dt.Timeout hwf]
      obtain ⟨uf, uw, uev, uref⟩ := releaseAll_spec volume m acquired s hwf hbound
      refine ⟨?_, uw, ?_⟩
      · show (false || (releaseAll volume m s acquired).fatal) = false
        rw [uf]
        rfl
      · intro _ r
        show countE (.mutexUnlock r m) (Event.subAcquire path m dt.Timeout false ::
            ([] ++ [Event.dtLogFailure] ++ (releaseAll volume m s acquired).events))
          = countE (.granted r m) (Event.subAcquire path m dt.Timeout false ::
            ([] ++ [Event.dtLogFailure] ++ (releaseAll volume m s acquired).events))
            + countS r (pathsJoinAll volume acquired)
        rw [List.nil_append, countE_cons, countE_cons, countE_append, countE_append,
          countE_cons, countE_cons, uev, countE_map_mutexUnlock]
        have hgr0 : countE (.granted r m)
            ((pathsJoinAll volume acquired).map (fun res => Event.mutexUnlock res m)) = 0 :=
          countE_eq_zero (fun hmem => by
            rcases List.mem_map.mp hmem with ⟨x, _, hx⟩
            exact absurd hx (by simp))
        rw [hgr0]
        simp [countE]

theorem refOf_nonneg {s : LockMap} (hwf : WF s) (r : String) : 0 ≤ refOf s r := by
  cases hl : lookupRes s r with
  | none => rw [refOf_of_none hl]
  | some lk => rw [refOf_of_some hl]; exact (refOf_pos_of_WF hwf hl).le

theorem isSome_iff_refOf_pos {s : LockMap} (hwf : WF s) (r : String) :
    (lookupRes s r).isSome = true ↔ 0 < refOf s r := by
  constructor
  · intro h
    cases hl : lookupRes s r with
    | none => rw [hl] at h; simp at h
    | some lk =>
      rw [refOf_of_some hl]
      exact refOf_pos_of_WF hwf hl
  · intro h
    obtain ⟨lk, hlk, _⟩ := lookupRes_some_of_refOf_pos s r h
    rw [hlk]
    rfl

/-- A successful run of the acquire loop records no failed sub-acquire. -/
theorem localGo_success_no_failed (volume opsID : String) (m : Bool) (ctx : Ctx)
    (dt : DynamicTimeout) (t1 t2 : Nat) :
    ∀ (pending acquired : List String) (gs : List Bool) (s : LockMap),
      (localGo volume opsID m ctx dt t1 t2 pending acquired gs s).err = false →
      ∀ (p : String) (mm : Bool) (t : Nat),
        Event.subAcquire p mm t false
          ∉ (localGo volume opsID m ctx dt t1 t2 pending acquired gs s).trace := by
  intro pending
  induction pending with
  | nil =>
    intro acquired gs s herr p mm t h
    rw [localGo_nil] at h
    simp at h
  | cons path rest ih =>
    intro acquired gs s herr p mm t h
    cases hg : gs.headD false with
    | true =>
      rw [localGo_cons_true volume opsID m ctx dt t1 t2 path rest acquired gs s hg] at herr h
      have herr' : (localGo volume opsID m ctx dt t1 t2 rest (acquired ++ [path]) gs.tail
          (lock s volume path "lockSource" opsID m dt.Timeout true).lockMap).err = false := herr
      simp only [lock_true_events_eq, List.singleton_append, List.mem_cons] at h
      rcases h with h | h | h
      · exact absurd h (by simp)
      · exact absurd h (by simp)
      · exact ih (acquired ++ [path]) gs.tail
          (lock s volume path "lockSource" opsID m dt.Timeout true).lockMap herr' p mm t h
    | false =>
      rw [localGo_cons_false volume opsID m ctx dt t1 t2 path rest acquired gs s hg] at herr
      exact absurd herr (by simp)

/-! ## Claim theorems -/

/-- C8: For every `NsLockMap.unlock` call whose joined volume/path resource
is absent from the registry map, the call silently returns: the map is left
unchanged, no mutex `Unlock` or `RUnlock` is invoked (no release event),
and no fatal error is raised. -/
theorem C8_unlock_absent_silent (s : LockMap) (volume path : String) (readLock : Bool)
    (habs : lookupRes s (pathJoin volume path) = none) :
    unlock s volume path readLock = { lockMap := s, fatal := false, events := [] } :=
  unlock_absent_eq readLock habs

theorem C8_unlock_absent_silent_witness :
    lookupRes [] (pathJoin "v" "p") = none ∧
    unlock [] "v" "p" false = { lockMap := [], fatal := false, events := [] } :=
  ⟨rfl, C8_unlock_absent_silent [] "v" "p" false rfl⟩

/-- C9: For every `localLockInstance.GetLock` or `GetRLock` call, on success
the context returned to the caller is the caller's original context
unchanged (no cancel wrapper is created), and on timeout the returned
context is nil (`none`) alongside the `OperationTimedOut` error. -/
theorem C9_local_returned_context (li : LocalLockInstance) (ctx : Ctx)
    (dt : DynamicTimeout) (grants : List Bool) (t1 t2 : Nat) (s : LockMap) :
    (li.GetLock ctx dt grants t1 t2 s).ret
      = (if (li.GetLock ctx dt grants t1 t2 s).err = true then none else some ctx) ∧
    (li.GetRLock ctx dt grants t1 t2 s).ret
      = (if (li.GetRLock ctx dt grants t1 t2 s).err = true then none else some ctx) := by
  constructor
  · cases herr : (li.GetLock ctx dt grants t1 t2 s).err with
    | false =>
      rw [if_neg (by simp)]
      exact (localGo_success_spec li.volume li.opsID false ctx dt t1 t2
        li.paths [] grants s herr).1
    | true =>
      rw [if_pos rfl]
      exact (localGo_failure_spec li.volume li.opsID false ctx dt t1 t2
        li.paths [] grants s herr).1
  · cases herr : (li.GetRLock ctx dt grants t1 t2 s).err with
    | false =>
      rw [if_neg (by simp)]
      exact (localGo_success_spec li.volume li.opsID true ctx dt t1 t2
        li.paths [] grants s herr).1
    | true =>
      rw [if_pos rfl]
      exact (localGo_failure_spec li.volume li.opsID true ctx dt t1 t2
        li.paths [] grants s herr).1

/-- C2: The NsLockMap registry preserves, across every lock and unlock
operation, the invariants: an entry exists in `lockMap` iff its `ref` is
positive (well-formedness, including the intermediate state published by
the first critical section `lockAddRef`), and `ref` is never observed
negative: the fatal branch does not fire on a well-formed registry. -/
theorem C2_registry_invariants (s : LockMap) (volume path lockSource opsID : String)
    (readLock grant : Bool) (timeout : Nat) (hwf : WF s) :
    WF (lockAddRef s (pathJoin volume path)) ∧
    WF (lock s volume path lockSource opsID readLock timeout grant).lockMap ∧
    (lock s volume path lockSource opsID readLock timeout grant).fatal = false ∧
    WF (unlock s volume path readLock).lockMap ∧
    (unlock s volume path readLock).fatal = false := by
  refine ⟨WF_lockAddRef hwf _, ?_, ?_, ?_, ?_⟩
  · cases grant with
    | false =>
      rw [lock_false_eq volume path lockSource opsID readLock timeout hwf]
      exact hwf
    | true =>
      exact (lock_true_spec volume path lockSource opsID readLock timeout hwf).2.2.2.1
  · cases grant with
    | false =>
      rw [lock_false_eq volume path lockSource opsID readLock timeout hwf]
    | true =>
      exact (lock_true_spec volume path lockSource opsID readLock timeout hwf).2.1
  · cases hl : lookupRes s (pathJoin volume path) with
    | none =>
      rw [unlock_absent_eq readLock hl]
      exact hwf
    | some lk =>
      exact (unlock_present_spec readLock hwf hl).2.1
  · cases hl : lookupRes s (pathJoin volume path) with
    | none =>
      rw [unlock_absent_eq readLock hl]
    | some lk =>
      exact (unlock_present_spec readLock hwf hl).1

theorem C2_registry_invariants_witness :
    WF [("v/a", ⟨2, ⟨0, 2⟩⟩)] ∧
    (WF (lockAddRef [("v/a", ⟨2, ⟨0, 2⟩⟩)] (pathJoin "v" "a")) ∧
     WF (lock [("v/a", ⟨2, ⟨0, 2⟩⟩)] "v" "a" "ls" "op" true 5 true).lockMap ∧
     (lock [("v/a", ⟨2, ⟨0, 2⟩⟩)] "v" "a" "ls" "op" true 5 true).fatal = false ∧
     WF (unlock [("v/a", ⟨2, ⟨0, 2⟩⟩)] "v" "a" true).lockMap ∧
     (unlock [("v/a", ⟨2, ⟨0, 2⟩⟩)] "v" "a" true).fatal = false) :=
  ⟨by decide, C2_registry_invariants [("v/a", ⟨2, ⟨0, 2⟩⟩)] "v" "a" "ls" "op"
    true true 5 (by decide)⟩

/-- C4: For every NsLockMap state, volume, path and mode, a successful
acquire of the resource followed by the matching release leaves the
registry map in the same state as before: the same key-set and the same
ref value for every key. -/
theorem C4_acquire_release_roundtrip (s : LockMap) (volume path lockSource opsID : String)
    (readLock : Bool) (timeout : Nat) (hwf : WF s) :
    (∀ r, (lookupRes (unlock
        (lock s volume path lockSource opsID readLock timeout true).lockMap
        volume path readLock).lockMap r).isSome = (lookupRes s r).isSome) ∧
    (∀ r, refOf (unlock
        (lock s volume path lockSource opsID readLock timeout true).lockMap
        volume path readLock).lockMap r = refOf s r) := by
  obtain ⟨hl1, hl2, hl3, hl4, hl5, hl6⟩ :=
    lock_true_spec volume path lockSource opsID readLock timeout hwf
  have hpos : 0 < refOf (lock s volume path lockSource opsID readLock timeout true).lockMap
      (pathJoin volume path) := by
    rw [hl5]
    have := refOf_nonneg hwf (pathJoin volume path)
    omega
  obtain ⟨lk1, hlk1, hlk1ref⟩ := lookupRes_some_of_refOf_pos _ _ hpos
  obtain ⟨hu1, hu2, hu3, hu4, hu5⟩ := unlock_present_spec readLock hl4 hlk1
  have hrefEq : ∀ r, refOf (unlock
      (lock s volume path lockSource opsID readLock timeout true).lockMap
      volume path readLock).lockMap r = refOf s r := by
    intro r
    by_cases hr : r = pathJoin volume path
    · rw [hr, hu4, hlk1ref, hl5]
      omega
    · rw [refOf, hu5 r hr, hl6 r hr, refOf]
  refine ⟨?_, hrefEq⟩
  intro r
  by_cases hr : r = pathJoin volume path
  · rw [hr]
    by_cases hp : 0 < refOf s (pathJoin volume path)
    · have h1 : (lookupRes s (pathJoin volume path)).isSome = true :=
        (isSome_iff_refOf_pos hwf _).mpr hp
      have h2 : (lookupRes (unlock
          (lock s volume path lockSource opsID readLock timeout true).lockMap
          volume path readLock).lockMap (pathJoin volume path)).isSome = true :=
        (isSome_iff_refOf_pos hu2 _).mpr (by rw [hrefEq (pathJoin volume path)]; exact hp)
      rw [h1, h2]
    · have h1 : ¬ (lookupRes s (pathJoin volume path)).isSome = true :=
        fun hh => hp ((isSome_iff_refOf_pos hwf _).mp hh)
      have h2 : ¬ (lookupRes (unlock
          (lock s volume path lockSource opsID readLock timeout true).lockMap
          volume path readLock).lockMap (pathJoin volume path)).isSome = true :=
        fun hh => hp (by
          rw [← hrefEq (pathJoin volume path)]
          exact (isSome_iff_refOf_pos hu2 _).mp hh)
      rw [Bool.not_eq_true] at h1 h2
      rw [h1, h2]
  · rw [hu5 r hr, hl6 r hr]

theorem C4_acquire_release_roundtrip_witness :
    WF [("v/a", ⟨2, ⟨0, 2⟩⟩)] ∧
    ((∀ r, (lookupRes (unlock
        (lock [("v/a", ⟨2, ⟨0, 2⟩⟩)] "v" "b" "ls" "op" false 5 true).lockMap
        "v" "b" false).lockMap r).isSome
        = (lookupRes [("v/a", ⟨2, ⟨0, 2⟩⟩)] r).isSome) ∧
     (∀ r, refOf (unlock
        (lock [("v/a", ⟨2, ⟨0, 2⟩⟩)] "v" "b" "ls" "op" false 5 true).lockMap
        "v" "b" false).lockMap r = refOf [("v/a", ⟨2, ⟨0, 2⟩⟩)] r)) :=
  ⟨by decide, C4_acquire_release_roundtrip [("v/a", ⟨2, ⟨0, 2⟩⟩)] "v" "b" "ls" "op"
    false 5 (by decide)⟩

/-- C7: In every `localLockInstance.GetLock` or `GetRLock` call, the timeout
bound handed to every per-path sub-acquire equals `DynamicTimeout.Timeout()`
of the controller state at the start of the call: within one call the
controller is not mutated between sub-acquires, so the value read by each
loop iteration is the value captured at the start. -/
theorem C7_timeout_bound_uniform (li : LocalLockInstance) (ctx : Ctx)
    (dt : DynamicTimeout) (grants : List Bool) (t1 t2 : Nat) (s : LockMap) :
    (∀ p mm t g, Event.subAcquire p mm t g ∈ (li.GetLock ctx dt grants t1 t2 s).trace →
      t = dt.Timeout) ∧
    (∀ p mm t g, Event.subAcquire p mm t g ∈ (li.GetRLock ctx dt grants t1 t2 s).trace →
      t = dt.Timeout) :=
  ⟨fun p mm t g h => (localGo_subAcquire_shape li.volume li.opsID false ctx dt t1 t2
      li.paths [] grants s p mm t g h).1,
   fun p mm t g h => (localGo_subAcquire_shape li.volume li.opsID true ctx dt t1 t2
      li.paths [] grants s p mm t g h).1⟩

theorem C7_timeout_bound_uniform_witness :
    Event.subAcquire "a" false 5 true
      ∈ ((⟨"v", ["a"], "op"⟩ : LocalLockInstance).GetLock (Ctx.root 0)
          (NewDynamicTimeout 5 1) [true] 0 7 []).trace ∧
    (5 : Nat) = (NewDynamicTimeout 5 1).Timeout :=
  ⟨by decide,
   (C7_timeout_bound_uniform ⟨"v", ["a"], "op"⟩ (Ctx.root 0)
      (NewDynamicTimeout 5 1) [true] 0 7 []).1 "a" false 5 true (by decide)⟩

/-- C3: For every `localLockInstance.GetLock` or `GetRLock` call that
returns success (nil error), every path of the instance's set was granted
in the requested mode (write and read respectively) and none was released
by the call (so all are held at the return instant), and
`DynamicTimeout.LogSuccess` is invoked exactly once, with the elapsed time
since the call started. -/
theorem C3_success_all_granted (li : LocalLockInstance) (ctx : Ctx)
    (dt : DynamicTimeout) (grants : List Bool) (t1 t2 : Nat) (s : LockMap) :
    ((li.GetLock ctx dt grants t1 t2 s).err = false →
      (∀ p ∈ li.paths, Event.granted (pathJoin li.volume p) false
        ∈ (li.GetLock ctx dt grants t1 t2 s).trace) ∧
      List.countP isMutexUnlock (li.GetLock ctx dt grants t1 t2 s).trace = 0 ∧
      List.countP isDtLogSuccess (li.GetLock ctx dt grants t1 t2 s).trace = 1 ∧
      countE (.dtLogSuccess (t2 - t1)) (li.GetLock ctx dt grants t1 t2 s).trace = 1 ∧
      (li.GetLock ctx dt grants t1 t2 s).dt = dt.LogSuccess (t2 - t1)) ∧
    ((li.GetRLock ctx dt grants t1 t2 s).err = false →
      (∀ p ∈ li.paths, Event.granted (pathJoin li.volume p) true
        ∈ (li.GetRLock ctx dt grants t1 t2 s).trace) ∧
      List.countP isMutexUnlock (li.GetRLock ctx dt grants t1 t2 s).trace = 0 ∧
      List.countP isDtLogSuccess (li.GetRLock ctx dt grants t1 t2 s).trace = 1 ∧
      countE (.dtLogSuccess (t2 - t1)) (li.GetRLock ctx dt grants t1 t2 s).trace = 1 ∧
      (li.GetRLock ctx dt grants t1 t2 s).dt = dt.LogSuccess (t2 - t1)) := by
  constructor
  · intro herr
    obtain ⟨_, i2, _, i4, i5, i6, i7⟩ := localGo_success_spec li.volume li.opsID false
      ctx dt t1 t2 li.paths [] grants s herr
    exact ⟨i7, i6, i4, i5, i2⟩
  · intro herr
    obtain ⟨_, i2, _, i4, i5, i6, i7⟩ := localGo_success_spec li.volume li.opsID true
      ctx dt t1 t2 li.paths [] grants s herr
    exact ⟨i7, i6, i4, i5, i2⟩

theorem C3_success_all_granted_witness :
    ((⟨"v", ["a"], "op"⟩ : LocalLockInstance).GetLock (Ctx.root 0)
        (NewDynamicTimeout 5 1) [true] 0 7 []).err = false ∧
    ((∀ p ∈ (⟨"v", ["a"], "op"⟩ : LocalLockInstance).paths,
        Event.granted (pathJoin (⟨"v", ["a"], "op"⟩ : LocalLockInstance).volume p) false
        ∈ ((⟨"v", ["a"], "op"⟩ : LocalLockInstance).GetLock (Ctx.root 0)
            (NewDynamicTimeout 5 1) [true] 0 7 []).trace) ∧
     List.countP isMutexUnlock ((⟨"v", ["a"], "op"⟩ : LocalLockInstance).GetLock (Ctx.root 0)
        (NewDynamicTimeout 5 1) [true] 0 7 []).trace = 0 ∧
     List.countP isDtLogSuccess ((⟨"v", ["a"], "op"⟩ : LocalLockInstance).GetLock (Ctx.root 0)
        (NewDynamicTimeout 5 1) [true] 0 7 []).trace = 1 ∧
     countE (.dtLogSuccess (7 - 0)) ((⟨"v", ["a"], "op"⟩ : LocalLockInstance).GetLock (Ctx.root 0)
        (NewDynamicTimeout 5 1) [true] 0 7 []).trace = 1 ∧
     ((⟨"v", ["a"], "op"⟩ : LocalLockInstance).GetLock (Ctx.root 0)
        (NewDynamicTimeout 5 1) [true] 0 7 []).dt = (NewDynamicTimeout 5 1).LogSuccess (7 - 0)) :=
  ⟨by decide,
   (C3_success_all_granted ⟨"v", ["a"], "op"⟩ (Ctx.root 0)
      (NewDynamicTimeout 5 1) [true] 0 7 []).1 (by decide)⟩

/-- C1: For every `localLockInstance.GetLock` or `GetRLock` call on a list
of paths, if the sub-acquire for some path fails, then
`DynamicTimeout.LogFailure` is invoked (exactly once), every previously
granted sub-lock is released via the registry's unlock in the same mode
(for every resource and mode, release events balance grant events), the
call returns a nil context with the `OperationTimedOut` error, and
afterward no path of the instance's set is held by that instance. -/
theorem C1_timeout_unwind (li : LocalLockInstance) (ctx : Ctx) (dt : DynamicTimeout)
    (grants : List Bool) (t1 t2 : Nat) (s : LockMap) (hwf : WF s) :
    ((∃ p t, Event.subAcquire p false t false ∈ (li.GetLock ctx dt grants t1 t2 s).trace) →
      (li.GetLock ctx dt grants t1 t2 s).err = true ∧
      (li.GetLock ctx dt grants t1 t2 s).ret = none ∧
      countE .dtLogFailure (li.GetLock ctx dt grants t1 t2 s).trace = 1 ∧
      (li.GetLock ctx dt grants t1 t2 s).dt = dt.LogFailure ∧
      (∀ r mm, countE (.mutexUnlock r mm) (li.GetLock ctx dt grants t1 t2 s).trace
        = countE (.granted r mm) (li.GetLock ctx dt grants t1 t2 s).trace)) ∧
    ((∃ p t, Event.subAcquire p true t false ∈ (li.GetRLock ctx dt grants t1 t2 s).trace) →
      (li.GetRLock ctx dt grants t1 t2 s).err = true ∧
      (li.GetRLock ctx dt grants t1 t2 s).ret = none ∧
      countE .dtLogFailure (li.GetRLock ctx dt grants t1 t2 s).trace = 1 ∧
      (li.GetRLock ctx dt grants t1 t2 s).dt = dt.LogFailure ∧
      (∀ r mm, countE (.mutexUnlock r mm) (li.GetRLock ctx dt grants t1 t2 s).trace
        = countE (.granted r mm) (li.GetRLock ctx dt grants t1 t2 s).trace)) := by
  have hbound0 : ∀ r, (countS r (pathsJoinAll li.volume []) : Int) ≤ refOf s r := by
    intro r
    show ((0 : Nat) : Int) ≤ refOf s r
    simpa using refOf_nonneg hwf r
  constructor
  · intro hex
    have herr : (li.GetLock ctx dt grants t1 t2 s).err = true := by
      cases herr : (li.GetLock ctx dt grants t1 t2 s).err with
      | false =>
        obtain ⟨p, t, hmem⟩ := hex
        exact absurd hmem (localGo_success_no_failed li.volume li.opsID false ctx dt t1 t2
          li.paths [] grants s herr p false t)
      | true => rfl
    obtain ⟨f1, f2, f3, _, _⟩ := localGo_failure_spec li.volume li.opsID false ctx dt t1 t2
      li.paths [] grants s herr
    obtain ⟨_, _, hbal⟩ := localGo_balance li.volume li.opsID false ctx dt t1 t2
      li.paths [] grants s hwf hbound0
    refine ⟨herr, f1, f3, f2, ?_⟩
    intro r mm
    cases hmm : mm with
    | false =>
      have hb := hbal herr r
      show countE (.mutexUnlock r false)
          (localGo li.volume li.opsID false ctx dt t1 t2 li.paths [] grants s).trace
        = countE (.granted r false)
          (localGo li.volume li.opsID false ctx dt t1 t2 li.paths [] grants s).trace
      rw [hb]
      simp [countS, pathsJoinAll]
    | true =>
      obtain ⟨hz1, hz2⟩ := localGo_mode_counts li.volume li.opsID false ctx dt t1 t2
        li.paths [] grants s r true (by simp)
      show countE (.mutexUnlock r true)
          (localGo li.volume li.opsID false ctx dt t1 t2 li.paths [] grants s).trace
        = countE (.granted r true)
          (localGo li.volume li.opsID false ctx dt t1 t2 li.paths [] grants s).trace
      rw [hz1, hz2]
  · intro hex
    have herr : (li.GetRLock ctx dt grants t1 t2 s).err = true := by
      cases herr : (li.GetRLock ctx dt grants t1 t2 s).err with
      | false =>
        obtain ⟨p, t, hmem⟩ := hex
        exact absurd hmem (localGo_success_no_failed li.volume li.opsID true ctx dt t1 t2
          li.paths [] grants s herr p true t)
      | true => rfl
    obtain ⟨f1, f2, f3, _, _⟩ := localGo_failure_spec li.volume li.opsID true ctx dt t1 t2
      li.paths [] grants s herr
    obtain ⟨_, _, hbal⟩ := localGo_balance li.volume li.opsID true ctx dt t1 t2
      li.paths [] grants s hwf hbound0
    refine ⟨herr, f1, f3, f2, ?_⟩
    intro r mm
    cases hmm : mm with
    | true =>
      have hb := hbal herr r
      show countE (.mutexUnlock r true)
          (localGo li.volume li.opsID true ctx dt t1 t2 li.paths [] grants s).trace
        = countE (.granted r true)
          (localGo li.volume li.opsID true ctx dt t1 t2 li.paths [] grants s).trace
      rw [hb]
      simp [countS, pathsJoinAll]
    | false =>
      obtain ⟨hz1, hz2⟩ := localGo_mode_counts li.volume li.opsID true ctx dt t1 t2
        li.paths [] grants s r false (by simp)
      show countE (.mutexUnlock r false)
          (localGo li.volume li.opsID true ctx dt t1 t2 li.paths [] grants s).trace
        = countE (.granted r false)
          (localGo li.volume li.opsID true ctx dt t1 t2 li.paths [] grants s).trace
      rw [hz1, hz2]

theorem C1_timeout_unwind_witness :
    WF [] ∧
    (∃ p t, Event.subAcquire p false t false
      ∈ ((⟨"v", ["a", "b"], "op"⟩ : LocalLockInstance).GetLock (Ctx.root 0)
          (NewDynamicTimeout 5 1) [true, false] 0 7 []).trace) ∧
    (((⟨"v", ["a", "b"], "op"⟩ : LocalLockInstance).GetLock (Ctx.root 0)
        (NewDynamicTimeout 5 1) [true, false] 0 7 []).err = true ∧
     ((⟨"v", ["a", "b"], "op"⟩ : LocalLockInstance).GetLock (Ctx.root 0)
        (NewDynamicTimeout 5 1) [true, false] 0 7 []).ret = none ∧
     countE .dtLogFailure ((⟨"v", ["a", "b"], "op"⟩ : LocalLockInstance).GetLock (Ctx.root 0)
        (NewDynamicTimeout 5 1) [true, false] 0 7 []).trace = 1 ∧
     ((⟨"v", ["a", "b"], "op"⟩ : LocalLockInstance).GetLock (Ctx.root 0)
        (NewDynamicTimeout 5 1) [true, false] 0 7 []).dt = (NewDynamicTimeout 5 1).LogFailure ∧
     (∀ r mm, countE (.mutexUnlock r mm)
          ((⟨"v", ["a", "b"], "op"⟩ : LocalLockInstance).GetLock (Ctx.root 0)
            (NewDynamicTimeout 5 1) [true, false] 0 7 []).trace
        = countE (.granted r mm)
          ((⟨"v", ["a", "b"], "op"⟩ : LocalLockInstance).GetLock (Ctx.root 0)
            (NewDynamicTimeout 5 1) [true, false] 0 7 []).trace)) :=
  ⟨by decide, ⟨"b", 5, by decide⟩,
   (C1_timeout_unwind ⟨"v", ["a", "b"], "op"⟩ (Ctx.root 0)
      (NewDynamicTimeout 5 1) [true, false] 0 7 [] (by decide)).1 ⟨"b", 5, by decide⟩⟩

/-- C5 counterexample: in the distributed backend, `NsLockMap.NewNSLock`
hands the joined names to the DRWMutex in the caller's original order
(`sort.Strings` runs only in the local branch), so for the input
`["z", "a"]` the distributed instance carries the unsorted list
`["v/z", "v/a"]`. -/
theorem C5_counterexample :
    NsLockMap.NewNSLock (NewNSLock true) "op1" "v" ["z", "a"]
      = RWLocker.distInst ⟨⟨["v/z", "v/a"]⟩, "op1"⟩ ∧
    ¬ List.Sorted strLe ["v/z", "v/a"] := by
  constructor
  · decide
  · rw [List.sorted_cons]
    intro h
    have h2 := h.1 "v/a" (by simp)
    rw [strLe] at h2
    revert h2
    decide

/-- C5 (amended): For every invocation of `NsLockMap.NewNSLock`, in the
local backend the returned lock instance has its list of paths sorted
lexicographically before any acquisition is attempted; in the distributed
backend the joined volume/path names are handed to the single DRWMutex in
the caller's original order, unsorted. -/
theorem C5_local_sorted_dist_original_order (opsID volume : String)
    (paths : List String) (lm : Option LockMap) :
    NsLockMap.NewNSLock ⟨false, lm⟩ opsID volume paths
      = RWLocker.localInst ⟨volume, sortStrings paths, opsID⟩ ∧
    List.Sorted strLe (sortStrings paths) ∧
    NsLockMap.NewNSLock ⟨true, lm⟩ opsID volume paths
      = RWLocker.distInst ⟨⟨pathsJoinAll volume paths⟩, opsID⟩ :=
  ⟨rfl, sortStrings_sorted paths, rfl⟩

/-- C6: In the source, `distLockInstance.GetRLock` hands the caller's
ORIGINAL context — not the cancel-wrapped context derived from it — to the
underlying DRWMutex acquire (namespace-lock.go line 170), whereas `GetLock`
hands the cancel-wrapped context (line 149).  The spec states the wrapped
context is the correct one in both paths. -/
theorem C6_dist_getrlock_passes_original_ctx (di : DistLockInstance) (ctx : Ctx)
    (dt : DynamicTimeout) (grant : Bool) (t1 t2 : Nat) :
    (di.GetRLock ctx dt grant t1 t2).passedCtx = ctx ∧
    (di.GetLock ctx dt grant t1 t2).passedCtx = Ctx.withCancel ctx ∧
    Ctx.withCancel ctx ≠ ctx := by
  refine ⟨?_, ?_, ?_⟩
  · cases grant <;> rfl
  · cases grant <;> rfl
  · intro h
    have hd := congrArg Ctx.depth h
    rw [Ctx.depth] at hd
    omega

/-- C10: `NewNSLock` with `isDistErasure = true` leaves `lockMap` nil;
`NsLockMap.NewNSLock` then returns a distributed instance whose single
DRWMutex covers all joined volume/path names; and every operation of a
distributed instance (GetLock, GetRLock, Unlock, RUnlock) leaves the
NsLockMap state untouched, performing one combined DRWMutex acquisition
instead of per-path registry acquires. -/
theorem C10_dist_instance_frame (volume opsID : String) (paths : List String)
    (n : NsLockMap) (ctx : Ctx) (dt : DynamicTimeout) (grants : List Bool)
    (t1 t2 : Nat) (di : DistLockInstance) (grant : Bool) :
    (NewNSLock true).lockMap = none ∧
    NsLockMap.NewNSLock (NewNSLock true) opsID volume paths
      = RWLocker.distInst ⟨⟨pathsJoinAll volume paths⟩, opsID⟩ ∧
    RWLocker.nsAfterGetLock (.distInst di) n ctx dt grants t1 t2 = n ∧
    RWLocker.nsAfterGetRLock (.distInst di) n ctx dt grants t1 t2 = n ∧
    RWLocker.nsAfterUnlock (.distInst di) n = n ∧
    RWLocker.nsAfterRUnlock (.distInst di) n = n ∧
    List.countP isDrwAcquire (di.GetLock ctx dt grant t1 t2).trace = 1 ∧
    Event.drwAcquire di.rwMutex.names false ∈ (di.GetLock ctx dt grant t1 t2).trace ∧
    List.countP isDrwAcquire (di.GetRLock ctx dt grant t1 t2).trace = 1 ∧
    Event.drwAcquire di.rwMutex.names true ∈ (di.GetRLock ctx dt grant t1 t2).trace := by
  refine ⟨rfl, rfl, rfl, rfl, rfl, rfl, ?_, ?_, ?_, ?_⟩ <;>
    cases grant <;>
      simp [DistLockInstance.GetLock, DistLockInstance.GetRLock,
        List.countP_cons, isDrwAcquire]
